import Mathlib

/-!
Verification development for the generative analysis pipeline of
`src/services/gemini_client.py` (class `GeminiClient`).

The Python code is shallowly embedded as executable Lean definitions:

* Python `dict` request records become `DataMap` (insertion-ordered
  association lists with unique keys, mirroring `dict` semantics of
  `get` / item assignment).
* `json.loads` is embedded as `json_loads`, a fuel-based recursive-descent
  parser implementing the strict JSON grammar accepted by CPython's
  `json` module (raw control characters are rejected inside strings,
  `NaN` / `Infinity` / `-Infinity` are accepted, numbers follow the scanner's
  NUMBER_RE).  Numeric tokens are kept as their lexemes and object members
  as ordered pairs: the claims only ever compare parses of identical texts,
  so the payload representation is immaterial.
* `re.search(r"```json\n(.*?)\n```", text, re.DOTALL)` is embedded as
  `extract_fenced` (leftmost match of the opening marker, shortest interior
  up to the first closing marker).
* The external collaborators (web search, snippet fetch, future completion,
  `model.generate_content`) are oracles passed in as functions; an oracle
  outcome `exn` models the call raising an exception.
* Python floats are modelled by `ℚ` with exact arithmetic; `int(x)` is
  `pytrunc` (truncation toward zero).  Wall-clock values (`time.time()`)
  are abstracted to an opaque tag.
* The long fixed Portuguese prompt texts of `_generate_phase_prompt` are
  abbreviated to short stand-in constants; their composition structure
  (format slots, per-phase text, appended per-phase context blocks) is kept
  exactly, since no claim depends on the fixed wording.
-/

/-! ## Characters and small helpers -/

/-- The backtick character (written via its code point). -/
def btChar : Char := Char.ofNat 96

/-- Whitespace characters skipped by CPython's json module (`' \t\n\r'`). -/
def isWsChar (c : Char) : Bool :=
  c = ' ' || c = '\t' || c = '\n' || c = '\r'

/-- Drop the longest whitespace run at the head of the input. -/
def skipWs : List Char → List Char
  | [] => []
  | c :: cs => if isWsChar c then skipWs cs else c :: cs

/-- Detects a raw newline immediately followed by a backtick. Valid JSON text
never contains this two-character sequence, which is what makes the fenced
re-wrapping of a payload recoverable. -/
def nlBt : List Char → Bool
  | c1 :: c2 :: rest => (c1 = '\n' && c2 = btChar) || nlBt (c2 :: rest)
  | _ => false

/-- A consumed input segment of the JSON parser: free of the
newline-backtick sequence, not ending in a raw newline, not starting with a
backtick.  Concatenations of such segments (with whitespace runs allowed
before nonempty ones) stay free of newline-backtick. -/
def GoodSeg (pre : List Char) : Prop :=
  nlBt pre = false ∧ pre.getLast? ≠ some '\n' ∧ pre.head? ≠ some btChar

/-! ## JSON values

Payloads parsed out of the generation backend's text.  Numbers keep their
lexeme; strings keep their raw (still escaped) body; objects keep their
members in source order. -/

inductive Json where
  | null
  | bool (b : Bool)
  | num (lexeme : String)
  | str (body : String)
  | arr (elems : List Json)
  | obj (members : List (String × Json))

/-! ## String bodies, numbers and literals (non-recursive scanners) -/

/-- Hexadecimal digit test (for `\u` escapes). -/
def isHexChar (c : Char) : Bool :=
  c.isDigit || (97 ≤ c.toNat && c.toNat ≤ 102) || (65 ≤ c.toNat && c.toNat ≤ 70)

/-- Characters admissible after a backslash, other than `u`. -/
def isSimpleEscape (c : Char) : Bool :=
  c = '"' || c = '\\' || c = '/' || c = 'b' || c = 'f' || c = 'n' || c = 'r' || c = 't'

/-- Scan a JSON string body (the part after the opening quote) in strict mode:
raw control characters are rejected, escapes are validated.  Returns the raw
body (escape sequences kept verbatim) and the input after the closing
quote. -/
def parseStringBody : List Char → Option (List Char × List Char)
  | [] => Option.none
  | c :: cs =>
    if c = '"' then some ([], cs)
    else if c = '\\' then
      match cs with
      | [] => Option.none
      | e :: cs' =>
        if e = 'u' then
          match cs' with
          | h1 :: h2 :: h3 :: h4 :: cs'' =>
            if isHexChar h1 && isHexChar h2 && isHexChar h3 && isHexChar h4 then
              match parseStringBody cs'' with
              | Option.none => Option.none
              | some (body, rest) => some ('\\' :: 'u' :: h1 :: h2 :: h3 :: h4 :: body, rest)
            else Option.none
          | _ => Option.none
        else if isSimpleEscape e then
          match parseStringBody cs' with
          | Option.none => Option.none
          | some (body, rest) => some ('\\' :: e :: body, rest)
        else Option.none
    else if c.toNat < 32 then Option.none
    else
      match parseStringBody cs with
      | Option.none => Option.none
      | some (body, rest) => some (c :: body, rest)

/-- Take the longest digit run at the head of the input. -/
def takeDigits : List Char → List Char × List Char
  | [] => ([], [])
  | c :: cs =>
    if c.isDigit then
      let (ds, rest) := takeDigits cs
      (c :: ds, rest)
    else ([], c :: cs)

/-- Integer part of a JSON number: `0` or a nonzero digit followed by digits. -/
def parseIntPart : List Char → Option (List Char × List Char)
  | [] => Option.none
  | c :: cs =>
    if c = '0' then some (['0'], cs)
    else if c.isDigit then
      let (ds, rest) := takeDigits cs
      some (c :: ds, rest)
    else Option.none

/-- Optional fractional part `.digits` (kept only when at least one digit
follows the dot, as in the scanner's regular expression). -/
def parseFracPart : List Char → List Char × List Char
  | '.' :: cs =>
    match takeDigits cs with
    | ([], _) => ([], '.' :: cs)
    | (ds, rest) => ('.' :: ds, rest)
  | cs => ([], cs)

/-- Optional exponent part `[eE][+-]?digits`. -/
def parseExpPart : List Char → List Char × List Char
  | [] => ([], [])
  | e :: cs =>
    if e = 'e' || e = 'E' then
      match cs with
      | [] => ([], [e])
      | s :: cs' =>
        if s = '+' || s = '-' then
          match takeDigits cs' with
          | ([], _) => ([], e :: s :: cs')
          | (ds, rest) => (e :: s :: ds, rest)
        else
          match takeDigits cs with
          | ([], _) => ([], e :: cs)
          | (ds, rest) => (e :: ds, rest)
    else ([], e :: cs)

/-- A JSON number lexeme, per the json scanner's NUMBER_RE. -/
def parseNumber (cs : List Char) : Option (List Char × List Char) :=
  match cs with
  | '-' :: cs' =>
    match parseIntPart cs' with
    | Option.none => Option.none
    | some (ip, r1) =>
      let (fp, r2) := parseFracPart r1
      let (ep, r3) := parseExpPart r2
      some ('-' :: (ip ++ fp ++ ep), r3)
  | _ =>
    match parseIntPart cs with
    | Option.none => Option.none
    | some (ip, r1) =>
      let (fp, r2) := parseFracPart r1
      let (ep, r3) := parseExpPart r2
      some (ip ++ fp ++ ep, r3)

/-- Expect a fixed literal continuation (for `null`, `true`, `false`, `NaN`,
`Infinity`). -/
def expectLit (lit : List Char) (cs : List Char) : Option (List Char) :=
  if lit.isPrefixOf cs then some (cs.drop lit.length) else Option.none

/-! ## The recursive value parser

Fuel decreases at every mutual call; `jsonFuel` below is an ample bound, so
the fuel is a totality device only.  All theorems are conditional on a
parse outcome, never on fuel sufficiency. -/

mutual

def parseValue : Nat → List Char → Option (Json × List Char)
  | 0, _ => Option.none
  | fuel + 1, cs =>
    match skipWs cs with
    | [] => Option.none
    | c :: rest =>
      if c = '\x7b' then parseObjBody fuel rest
      else if c = '[' then parseArrBody fuel rest
      else if c = '"' then
        match parseStringBody rest with
        | Option.none => Option.none
        | some (body, r) => some (Json.str (String.mk body), r)
      else if c = 't' then (expectLit "rue".data rest).map (fun r => (Json.bool true, r))
      else if c = 'f' then (expectLit "alse".data rest).map (fun r => (Json.bool false, r))
      else if c = 'n' then (expectLit "ull".data rest).map (fun r => (Json.null, r))
      else if c = 'N' then (expectLit "aN".data rest).map (fun r => (Json.num "NaN", r))
      else if c = 'I' then
        (expectLit "nfinity".data rest).map (fun r => (Json.num "Infinity", r))
      else if c = '-' || c.isDigit then
        match parseNumber (c :: rest) with
        | some (lex, r) => some (Json.num (String.mk lex), r)
        | Option.none =>
          if c = '-' then
            (expectLit "Infinity".data rest).map (fun r => (Json.num "-Infinity", r))
          else Option.none
      else Option.none

def parseObjBody : Nat → List Char → Option (Json × List Char)
  | 0, _ => Option.none
  | fuel + 1, cs =>
    match skipWs cs with
    | '\x7d' :: rest => some (Json.obj [], rest)
    | '"' :: rest =>
      match parseStringBody rest with
      | Option.none => Option.none
      | some (key, r1) => parseObjMembers fuel (String.mk key) r1 []
    | _ => Option.none

def parseObjMembers : Nat → String → List Char → List (String × Json) →
    Option (Json × List Char)
  | 0, _, _, _ => Option.none
  | fuel + 1, key, cs, acc =>
    match skipWs cs with
    | ':' :: r =>
      match parseValue fuel r with
      | Option.none => Option.none
      | some (v, r2) =>
        match skipWs r2 with
        | ',' :: r3 =>
          match skipWs r3 with
          | '"' :: r4 =>
            match parseStringBody r4 with
            | Option.none => Option.none
            | some (k2, r5) => parseObjMembers fuel (String.mk k2) r5 (acc ++ [(key, v)])
          | _ => Option.none
        | '\x7d' :: r3 => some (Json.obj (acc ++ [(key, v)]), r3)
        | _ => Option.none
    | _ => Option.none

def parseArrBody : Nat → List Char → Option (Json × List Char)
  | 0, _ => Option.none
  | fuel + 1, cs =>
    match skipWs cs with
    | ']' :: rest => some (Json.arr [], rest)
    | _ => parseArrElems fuel cs []

def parseArrElems : Nat → List Char → List Json → Option (Json × List Char)
  | 0, _, _ => Option.none
  | fuel + 1, cs, acc =>
    match parseValue fuel cs with
    | Option.none => Option.none
    | some (v, r) =>
      match skipWs r with
      | ']' :: r2 => some (Json.arr (acc ++ [v]), r2)
      | ',' :: r2 => parseArrElems fuel r2 (acc ++ [v])
      | _ => Option.none

end

/-- Ample fuel for any input of this length. -/
def jsonFuel (cs : List Char) : Nat := 3 * cs.length + 8

/-- CPython `json.loads` on a character list: parse one value, then require
that only whitespace remains (otherwise "Extra data"). -/
def json_loads_list (cs : List Char) : Option Json :=
  match parseValue (jsonFuel cs) cs with
  | Option.none => Option.none
  | some (v, rest) => if skipWs rest = [] then some v else Option.none

/-- CPython `json.loads` on a string. -/
def json_loads (s : String) : Option Json :=
  json_loads_list s.data

/-! ## Fenced-block extraction

Embedding of `re.search(r"```json\n(.*?)\n```", text, re.DOTALL)`:
the match starts at the leftmost occurrence of the opening marker and the
non-greedy interior ends at the first following closing marker. -/

/-- The `"```json\n"` opening marker. -/
def openMarker : List Char := "```json\n".data

/-- The `"\n```"` closing marker. -/
def closeMarker : List Char := "\n```".data

/-- Drop through the first occurrence of `marker`, returning the suffix after
it (`Option.none` when the marker does not occur). -/
def dropAfterFirst (marker : List Char) : List Char → Option (List Char)
  | [] => Option.none
  | c :: rest =>
    if marker.isPrefixOf (c :: rest) then some ((c :: rest).drop marker.length)
    else dropAfterFirst marker rest

/-- Take the segment before the first occurrence of `marker` (`Option.none`
when the marker does not occur). -/
def takeBefore (marker : List Char) : List Char → Option (List Char)
  | [] => Option.none
  | c :: rest =>
    if marker.isPrefixOf (c :: rest) then some []
    else (takeBefore marker rest).map (c :: ·)

/-- Interior of the first fenced ```json block, per the regex above. -/
def extract_fenced (cs : List Char) : Option (List Char) :=
  match dropAfterFirst openMarker cs with
  | Option.none => Option.none
  | some tail => takeBefore closeMarker tail

/-- The per-phase response handling of `generate_analysis`
(gemini_client.py lines 2462-2477): try `json.loads` on the raw text; on
failure, look for a fenced ```json block and `json.loads` its interior; on
failure, the outcome is a parse error (`Option.none`) and the phase is
skipped.  Totality of this function is the embedding of "the parser never
raises uncaught". -/
def parse_phase_text (text : String) : Option Json :=
  match json_loads text with
  | some j => some j
  | Option.none =>
    match extract_fenced text.data with
    | some inner => json_loads_list inner
    | Option.none => Option.none

/-- Wrap a payload in extraneous ```json fencing. -/
def wrapFence (s : String) : String := "```json\n" ++ s ++ "\n```"

/-! ## Serialization and Python-value rendering -/

/-- Concatenation of a list of strings (used for the `+=` accumulation
loops of the Python code). -/
def strJoin (l : List String) : String := l.foldr (· ++ ·) ""

mutual

/-- Embedding of `json.dumps` on payloads.  The code calls it with
`indent=2`; the exact whitespace layout is immaterial to every claim, so we
serialize compactly. -/
def dumpsJson : Json → String
  | Json.null => "null"
  | Json.bool true => "true"
  | Json.bool false => "false"
  | Json.num lx => lx
  | Json.str b => "\"" ++ b ++ "\""
  | Json.arr es => "[" ++ dumpsList es ++ "]"
  | Json.obj ms => "\x7b" ++ dumpsMembers ms ++ "\x7d"

def dumpsList : List Json → String
  | [] => ""
  | [j] => dumpsJson j
  | j :: rest => dumpsJson j ++ ", " ++ dumpsList rest

def dumpsMembers : List (String × Json) → String
  | [] => ""
  | [(k, v)] => "\"" ++ k ++ "\": " ++ dumpsJson v
  | (k, v) :: rest => "\"" ++ k ++ "\": " ++ dumpsJson v ++ ", " ++ dumpsMembers rest

end

/-! ## The request record

A Python dict with string keys: insertion-ordered association list with
unique keys.  Item assignment replaces in place or appends, as `dict` does.
String values are modelled as non-numeric text (`float()` on them raises;
no claim feeds a numeric string), Python numbers as exact rationals. -/

inductive DVal where
  | str (v : String)
  | num (v : ℚ)
  | pynone
  | jsonv (v : Json)

/-- A Python dict with string keys. -/
abbrev DataMap := List (String × DVal)

/-- Python `d[k]` lookup (`Option.none` when the key is absent). -/
def dget : DataMap → String → Option DVal
  | [], _ => Option.none
  | (k', v') :: rest, k => if k' = k then some v' else dget rest k

/-- Python `d.get(k, default)`. -/
def dgetD (d : DataMap) (k : String) (default : DVal) : DVal :=
  match dget d k with
  | some v => v
  | Option.none => default

/-- Python `d[k] = v`: replace in place, or append a new key. -/
def dset : DataMap → String → DVal → DataMap
  | [], k, v => [(k, v)]
  | (k', v') :: rest, k, v =>
    if k' = k then (k, v) :: rest else (k', v') :: dset rest k v

/-- Rendering of a Python value inside an f-string / `str.format` slot.
Only the `DVal.str` case is ever exercised by the claims. -/
def pyStr : DVal → String
  | DVal.str v => v
  | DVal.num q => toString q
  | DVal.pynone => "None"
  | DVal.jsonv j => dumpsJson j

/-- Rendering of a Python value under `json.dumps` (the phase-context
appendices serialize whatever is stored under `fase_i_result`). -/
def dumpsD : DVal → String
  | DVal.str v => "\"" ++ v ++ "\""
  | DVal.num q => toString q
  | DVal.pynone => "null"
  | DVal.jsonv j => dumpsJson j

/-! ## Research layer (`search_internet`, `research_segment_comprehensive`,
lines 50-121) -/

/-- One web-search result entry `{title, url, snippet}`. -/
structure RResult where
  title : String
  url : String
  snippet : String
deriving DecidableEq

/-- Behaviour of the outbound search call for one query: a result list, or
an exception (timeout, network error, parse error) raised inside
`search_internet`'s `try`. -/
inductive SearchBehavior where
  | ok (rs : List RResult)
  | raises

/-- Behaviour of `future.result()` for one query's future, beyond what
`search_internet` already caught (e.g. cancellation). -/
inductive FutureBehavior where
  | normal
  | raises

/-- Lines 50-73: any exception inside the search is swallowed and an empty
list returned. -/
def search_internet (beh : String → SearchBehavior) (q : String) : List RResult :=
  match beh q with
  | SearchBehavior.ok rs => rs
  | SearchBehavior.raises => []

/-- Lines 95-106: the ten research queries, derived from the segment alone
by template substitution. -/
def research_queries (segmento : String) : List String :=
  [segmento ++ " mercado brasileiro 2023 2025",
   segmento ++ " tendências consumidor comportamento",
   segmento ++ " concorrentes principais Brasil",
   segmento ++ " preços produtos serviços",
   segmento ++ " público alvo demographics",
   segmento ++ " marketing digital estratégias",
   segmento ++ " palavras chave SEO",
   segmento ++ " influenciadores autoridades",
   segmento ++ " problemas dores clientes",
   segmento ++ " oportunidades negócio"]

/-- Lines 107-121: every submitted future is awaited; a raising
`future.result()` stores an empty list for that query only.  The dict is
keyed by query; we fix planner order for the association list (the
`as_completed` completion order only permutes dict insertion order, which no
claim observes). -/
def research_segment_comprehensive (fb : String → FutureBehavior)
    (beh : String → SearchBehavior) (segmento : String) :
    List (String × List RResult) :=
  (research_queries segmento).map fun q =>
    (q, match fb q with
        | FutureBehavior.normal => search_internet beh q
        | FutureBehavior.raises => [])

/-- Lines 2440-2445: compile the research summary; queries with empty
results contribute nothing, others contribute their top three results with
snippets truncated to 200 characters. -/
def summary_entry (q : String) (rs : List RResult) : String :=
  if rs.isEmpty then ""
  else
    "\n\n**" ++ q ++ ":**\n" ++
      strJoin ((rs.take 3).map fun r =>
        "- " ++ r.title ++ ": " ++ r.snippet.take 200 ++ "...\n")

/-- The full research summary string. -/
def research_summary (rd : List (String × List RResult)) : String :=
  strJoin (rd.map fun p => summary_entry p.1 p.2)

/-! ## Fallback synthesizer (`_create_fallback_analysis`, lines 123-486) -/

/-- Python `int()` truncation toward zero, on the rational model of
floats. -/
def pytrunc (q : ℚ) : ℤ := Int.tdiv q.num q.den

/-- Lines 127-130: price coercion; any value that is absent, `None`, or on
which `float()` raises falls back to `997.0`. -/
def coerce_preco (data : DataMap) : ℚ :=
  match dget data "preco_float" with
  | some (DVal.num q) => q
  | _ => 997

/-- The price-derived monetary fields of the fallback analysis, one per
`int(preco * k)` site, named by their dict paths; the fixed text of the
remaining fields is immaterial to every claim and is abbreviated away. -/
structure FallbackDoc where
  segmento : String
  produto : String
  preco : ℚ
  ticket_medio_compra : ℤ
  concorrente_preco_lo : ℤ
  concorrente_preco_hi : ℤ
  ticket_medio_segmento : ℤ
  conservador_ticket : ℤ
  conservador_faturamento : ℤ
  realista_ticket : ℤ
  realista_faturamento : ℤ
  otimista_ticket : ℤ
  otimista_faturamento : ℤ

/-- The top-level keys of the dict returned by
`_create_fallback_analysis`. -/
def fallback_top_keys : List String :=
  ["escopo", "avatar_ultra_detalhado", "mapeamento_dores_ultra_detalhado",
   "analise_concorrencia_detalhada", "inteligencia_mercado",
   "estrategia_palavras_chave", "metricas_performance_detalhadas",
   "voz_mercado_linguagem", "projecoes_cenarios", "plano_acao_detalhado",
   "insights_exclusivos"]

/-- Lines 123-486.  The float constants `0.8`, `1.5`, `2.5`, `1.2` are the
exact rationals here; IEEE rounding is monotone, so the monotonicity facts
proved below transfer. -/
def create_fallback_analysis (data : DataMap) : FallbackDoc :=
  let segmento := pyStr (dgetD data "segmento" (dgetD data "nicho" (DVal.str "Produto Digital")))
  let produto := pyStr (dgetD data "produto" (DVal.str "Produto Digital"))
  let preco := coerce_preco data
  { segmento := segmento
    produto := produto
    preco := preco
    ticket_medio_compra := pytrunc (preco * (4 / 5))
    concorrente_preco_lo := pytrunc (preco * (3 / 2))
    concorrente_preco_hi := pytrunc (preco * (5 / 2))
    ticket_medio_segmento := pytrunc preco
    conservador_ticket := pytrunc preco
    conservador_faturamento := pytrunc (preco * 50)
    realista_ticket := pytrunc preco
    realista_faturamento := pytrunc (preco * 80)
    otimista_ticket := pytrunc (preco * (6 / 5))
    otimista_faturamento := pytrunc (preco * 150) }

/-! ## Prompt composition (`_generate_phase_prompt`, lines 488-2417)

The fixed Portuguese texts are abbreviated; the format slots, the per-phase
instruction block and the appended per-phase context blocks are kept
exactly. -/

/-- The `fase_{i}_result` context keys. -/
def fase_key (n : Nat) : String := "fase_" ++ toString n ++ "_result"

/-- The `base_prompt.format(...)` call of lines 2402-2410. -/
def base_prompt_format (segmento produto preco publico objetivo orcamento research : String) :
    String :=
  "BASE Segmento: " ++ segmento ++ " Produto: " ++ produto ++ " Preço: R$ " ++ preco ++
    " Público: " ++ publico ++ " Objetivo de Receita: R$ " ++ objetivo ++
    " Orçamento Marketing: R$ " ++ orcamento ++ " PESQUISA: " ++ research ++ " PROTOCOLO "

/-- The `phase_prompts` dict of lines 515-2395: a nonempty instruction text
for phases 1..9, the `.get(phase_number, "")` default otherwise. -/
def phase_prompt_text (n : Nat) : String :=
  if 1 ≤ n ∧ n ≤ 9 then "FASE " ++ toString n ++ " INSTRUÇÕES " else ""

/-- One appended context block (line 2415). -/
def context_chunk (i : Nat) (v : DVal) : String :=
  "\n\nCONTEXTO DA FASE ANTERIOR " ++ toString i ++ ":\n" ++ dumpsD v

/-- Lines 2413-2415: append the serialized `fase_i_result` entries present
in `current_data`, for i = 1 .. phase_number - 1, in order. -/
def context_for (data : DataMap) (n : Nat) : String :=
  strJoin (((List.range (n - 1)).map (· + 1)).map fun i =>
    match dget data (fase_key i) with
    | some v => context_chunk i v
    | Option.none => "")

/-- Lines 2397-2417; `Option.none` models the `ValueError` raised for an
unknown phase. -/
def generate_phase_prompt (n : Nat) (data : DataMap) (summary : String) : Option String :=
  if phase_prompt_text n = "" then Option.none
  else some
    (base_prompt_format
        (pyStr (dgetD data "segmento" (DVal.str "")))
        (pyStr (dgetD data "produto" (DVal.str "")))
        (pyStr (dgetD data "preco" (DVal.str "")))
        (pyStr (dgetD data "publico" (DVal.str "")))
        (pyStr (dgetD data "objetivo_receita" (DVal.str "")))
        (pyStr (dgetD data "orcamento_marketing" (DVal.str "")))
        summary
      ++ phase_prompt_text n
      ++ context_for data n)

/-! ## The pipeline (`generate_analysis`, lines 2419-2496) -/

/-- Outcome of one `model.generate_content` call: an exception, or a
response whose `.text` is the given string (the empty string models a falsy
`response.text`). -/
inductive GenResp where
  | exn
  | ok (text : String)

/-- The external collaborators of one run. -/
structure PipelineEnv where
  fb : String → FutureBehavior
  beh : String → SearchBehavior
  gen : Nat → String → GenResp

/-- State of the `self.model` attribute after `__init__` (lines 18-48):
`absent` when the attribute was never assigned (no API key, or the
constructor raised first), so that reading it raises `AttributeError`;
`falsyModel` for a set-but-falsy value (unreachable from this `__init__`,
kept because line 2420 tests exactly this); `configured` otherwise. -/
inductive ModelAttr where
  | absent
  | falsyModel
  | configured

/-- Lines 18-48: `__init__` assigns `self.model` only on the successful
configuration path. -/
def gemini_init (apiKeyPresent : Bool) (genaiInitOk : Bool) : ModelAttr :=
  if !apiKeyPresent then ModelAttr.absent
  else if genaiInitOk then ModelAttr.configured
  else ModelAttr.absent

/-- Values of the final `full_analysis_results` mapping. -/
inductive RVal where
  | payload (j : Json)
  | research (rd : List (String × List RResult))
  | timestamp

/-- What `generate_analysis` hands back to its caller. -/
inductive AnalysisResult where
  | attrError
  | errorDict
  | fallback (doc : FallbackDoc)
  | results (entries : List (String × RVal))

/-- Top-level keys of the returned value (an uncaught exception carries
none). -/
def resultKeys : AnalysisResult → List String
  | AnalysisResult.attrError => []
  | AnalysisResult.errorDict => ["error"]
  | AnalysisResult.fallback _ => fallback_top_keys
  | AnalysisResult.results entries => entries.map Prod.fst

/-- One iteration of the phase loop (lines 2448-2481).  `Option.none` models
an exception escaping the iteration into the outer `except` (the
`generate_content` call raising, or the `ValueError` of an unknown phase);
an empty or unparsable response leaves the state unchanged (`continue`);
success stores the payload both in `full_analysis_results` and in the
caller's `data` dict. -/
def phase_step (env : PipelineEnv) (summary : String)
    (st : DataMap × List (String × RVal)) (n : Nat) :
    Option (DataMap × List (String × RVal)) :=
  match generate_phase_prompt n st.1 summary with
  | Option.none => Option.none
  | some prompt =>
    match env.gen n prompt with
    | GenResp.exn => Option.none
    | GenResp.ok text =>
      if text = "" then some st
      else
        match parse_phase_text text with
        | some j =>
          some (dset st.1 (fase_key n) (DVal.jsonv j),
            st.2 ++ [(fase_key n, RVal.payload j)])
        | Option.none => some st

/-- The phase loop over a list of phase numbers; `Option.none` in the second
component records that an exception aborted the loop, with the first
component the `data` dict at that moment. -/
def run_loop (env : PipelineEnv) (summary : String) :
    List Nat → DataMap → List (String × RVal) →
    DataMap × Option (List (String × RVal))
  | [], data, results => (data, some results)
  | n :: rest, data, results =>
    match phase_step env summary (data, results) n with
    | Option.none => (data, Option.none)
    | some (d', r') => run_loop env summary rest d' r'

/-- The phase numbers of the `for phase_num in range(1, 10)` loop. -/
def phases : List Nat := [1, 2, 3, 4, 5, 6, 7, 8, 9]

/-- Lines 2419-2496.  Returns the final state of the caller's `data` dict
together with the returned value. -/
def generate_analysis (model : ModelAttr) (env : PipelineEnv) (data : DataMap) :
    DataMap × AnalysisResult :=
  match model with
  | ModelAttr.absent => (data, AnalysisResult.attrError)
  | ModelAttr.falsyModel => (data, AnalysisResult.errorDict)
  | ModelAttr.configured =>
    let segmento := pyStr (dgetD data "segmento" (dgetD data "nicho" (DVal.str "")))
    let research_data := research_segment_comprehensive env.fb env.beh segmento
    let summary := research_summary research_data
    match run_loop env summary phases data [] with
    | (d', Option.none) => (d', AnalysisResult.fallback (create_fallback_analysis d'))
    | (d', some results) =>
      if results.isEmpty then
        (d', AnalysisResult.fallback (create_fallback_analysis d'))
      else
        (d', AnalysisResult.results (results ++
          [("research_data", RVal.research research_data),
           ("generated_at", RVal.timestamp)]))

/-! ## Derived projections and concrete fixtures used by witnesses -/

/-- The segment string `generate_analysis` computes at line 2426. -/
def seg_of (data : DataMap) : String :=
  pyStr (dgetD data "segmento" (dgetD data "nicho" (DVal.str "")))

/-- The research summary a configured run computes (lines 2437-2445). -/
def summary_of (env : PipelineEnv) (data : DataMap) : String :=
  research_summary (research_segment_comprehensive env.fb env.beh (seg_of data))

/-- A generation response that one phase cannot use: empty or unparsable
text (the two `continue` paths), but no exception. -/
def soft_fails (env : PipelineEnv) (n : Nat) (pr : String) : Prop :=
  ∃ t, env.gen n pr = GenResp.ok t ∧ (t = "" ∨ parse_phase_text t = Option.none)

/-- Scenario A request: `{segment: "weight-loss coaching", price: 497}`. -/
def dataA : DataMap :=
  [("segmento", DVal.str "weight-loss coaching"), ("preco_float", DVal.num 497)]

/-- Scenario A request after a successful phase 1. -/
def dataB : DataMap :=
  [("segmento", DVal.str "weight-loss coaching"), ("preco_float", DVal.num 497),
   ("fase_1_result", DVal.jsonv (Json.arr [Json.num "1"]))]

/-- Research collaborators that answer every query with no results. -/
def quietResearch : (String → FutureBehavior) × (String → SearchBehavior) :=
  (fun _ => FutureBehavior.normal, fun _ => SearchBehavior.ok [])

/-- Every phase answers with parsable JSON. -/
def envAllOk : PipelineEnv :=
  { fb := quietResearch.1, beh := quietResearch.2, gen := fun _ _ => GenResp.ok "[1]" }

/-- Phase 1 answers parsable JSON, every other phase answers garbage. -/
def envPhase1Only : PipelineEnv :=
  { fb := quietResearch.1, beh := quietResearch.2,
    gen := fun n _ => if n = 1 then GenResp.ok "[1]" else GenResp.ok "x" }

/-- Phase 1 answers parsable JSON, phase 2 raises. -/
def envExnAt2 : PipelineEnv :=
  { fb := quietResearch.1, beh := quietResearch.2,
    gen := fun n _ => if n = 1 then GenResp.ok "[1]" else GenResp.exn }

/-- Every phase answers garbage text. -/
def envAllFail : PipelineEnv :=
  { fb := quietResearch.1, beh := quietResearch.2, gen := fun _ _ => GenResp.ok "x" }

/-! ## Lemmas about truncation -/

theorem pytrunc_eq (q : ℚ) : pytrunc q = if 0 ≤ q then ⌊q⌋ else ⌈q⌉ := by
  unfold pytrunc
  by_cases h : 0 ≤ q
  · rw [if_pos h, Rat.floor_def]
    exact Int.tdiv_eq_ediv (Rat.num_nonneg.mpr h) (Int.ofNat_nonneg q.den)
  · rw [if_neg h]
    have hnum : q.num = -(-q).num := by rw [Rat.neg_num]; ring
    have hden : (q.den : ℤ) = ((-q).den : ℤ) := by rw [Rat.neg_den]
    rw [hnum, hden, Int.neg_tdiv]
    have h2 : Int.tdiv (-q).num (-q).den = ⌊-q⌋ := by
      rw [Rat.floor_def]
      exact Int.tdiv_eq_ediv
        (Rat.num_nonneg.mpr (by linarith [not_le.mp h])) (Int.ofNat_nonneg _)
    rw [h2, Int.floor_neg]
    simp

theorem pytrunc_mono {p q : ℚ} (h : p ≤ q) : pytrunc p ≤ pytrunc q := by
  rw [pytrunc_eq, pytrunc_eq]
  by_cases hp : 0 ≤ p <;> by_cases hq : 0 ≤ q
  · simpa [hp, hq] using Int.floor_le_floor h
  · linarith
  · simp only [hp, hq, if_true, if_false]
    calc ⌈p⌉ ≤ ⌈(0 : ℚ)⌉ := Int.ceil_le_ceil (le_of_not_le hp)
    _ = 0 := by simp
    _ ≤ ⌊q⌋ := by positivity
  · simpa [hp, hq] using Int.ceil_le_ceil h

/-! ## Lemmas about the dict embedding -/

theorem dget_dset_self (d : DataMap) (k : String) (v : DVal) :
    dget (dset d k v) k = some v := by
  induction d with
  | nil => simp [dset, dget]
  | cons p rest ih =>
    obtain ⟨pk, pv⟩ := p
    by_cases h : pk = k
    · subst h; simp [dset, dget]
    · simp [dset, dget, h, ih]

theorem dget_dset_ne (d : DataMap) (k k' : String) (v : DVal) (h : k' ≠ k) :
    dget (dset d k v) k' = dget d k' := by
  induction d with
  | nil => simp [dset, dget, Ne.symm h]
  | cons p rest ih =>
    obtain ⟨pk, pv⟩ := p
    by_cases hp : pk = k
    · subst hp; simp [dset, dget, Ne.symm h]
    · simp only [dset, hp, if_false, dget]
      by_cases hp' : pk = k'
      · simp [hp']
      · simp [hp', ih]

/-! ## Lemmas about one phase step and the loop -/

/-- Inside the loop (phases 1-9), `_generate_phase_prompt` always returns a
prompt; the `ValueError` branch is unreachable. -/
theorem generate_phase_prompt_isSome (n : Nat) (data : DataMap) (summary : String)
    (h1 : 1 ≤ n) (h9 : n ≤ 9) :
    generate_phase_prompt n data summary =
      some (base_prompt_format
          (pyStr (dgetD data "segmento" (DVal.str "")))
          (pyStr (dgetD data "produto" (DVal.str "")))
          (pyStr (dgetD data "preco" (DVal.str "")))
          (pyStr (dgetD data "publico" (DVal.str "")))
          (pyStr (dgetD data "objetivo_receita" (DVal.str "")))
          (pyStr (dgetD data "orcamento_marketing" (DVal.str "")))
          summary
        ++ phase_prompt_text n
        ++ context_for data n) := by
  have hne : phase_prompt_text n ≠ "" := by
    unfold phase_prompt_text
    rw [if_pos ⟨h1, h9⟩]
    intro hcontra
    have hlen := congrArg String.length hcontra
    simp only [String.length_append] at hlen
    have h5 : "FASE ".length = 5 := rfl
    have h0 : "".length = 0 := rfl
    omega
  unfold generate_phase_prompt
  rw [if_neg hne]

/-- A phase whose backend response is empty or unparsable is skipped with
the loop state unchanged. -/
theorem phase_step_soft_fail (env : PipelineEnv) (summary : String)
    (d : DataMap) (res : List (String × RVal)) (n : Nat) (pr : String)
    (hpr : generate_phase_prompt n d summary = some pr)
    (hsoft : ∃ t, env.gen n pr = GenResp.ok t ∧ (t = "" ∨ parse_phase_text t = Option.none)) :
    phase_step env summary (d, res) n = some (d, res) := by
  obtain ⟨t, hgen, hfail⟩ := hsoft
  unfold phase_step
  rw [hpr]
  simp only
  rw [hgen]
  rcases hfail with h | h
  · simp [h]
  · by_cases ht : t = ""
    · simp [ht]
    · simp [ht, h]

/-- A phase whose backend call raises aborts the whole loop at once. -/
theorem run_loop_exn (env : PipelineEnv) (summary : String)
    (d : DataMap) (res : List (String × RVal)) (n : Nat) (rest : List Nat) (pr : String)
    (hpr : generate_phase_prompt n d summary = some pr)
    (hexn : env.gen n pr = GenResp.exn) :
    run_loop env summary (n :: rest) d res = (d, Option.none) := by
  unfold run_loop phase_step
  rw [hpr]
  simp only
  rw [hexn]

/-- Each phase step is one of: exception, skip, or success storing a parsed
payload under the phase's key. -/
theorem phase_step_cases (env : PipelineEnv) (summary : String)
    (d : DataMap) (res : List (String × RVal)) (n : Nat) :
    phase_step env summary (d, res) n = Option.none ∨
    phase_step env summary (d, res) n = some (d, res) ∨
    ∃ j, phase_step env summary (d, res) n =
      some (dset d (fase_key n) (DVal.jsonv j), res ++ [(fase_key n, RVal.payload j)]) := by
  unfold phase_step
  cases hpr : generate_phase_prompt n d summary with
  | none => exact Or.inl rfl
  | some pr =>
    simp only
    cases hgen : env.gen n pr with
    | exn => exact Or.inl rfl
    | ok t =>
      by_cases ht : t = ""
      · simp [ht]
      · simp only [ht, if_false]
        cases hp : parse_phase_text t with
        | none => simp
        | some j => exact Or.inr (Or.inr ⟨j, rfl⟩)

/-- Keys outside the phase-key set are never touched by the loop. -/
theorem run_loop_dget_other (env : PipelineEnv) (summary : String) :
    ∀ (ns : List Nat) (d : DataMap) (res : List (String × RVal)) (k : String),
      (∀ n ∈ ns, k ≠ fase_key n) →
      dget (run_loop env summary ns d res).1 k = dget d k := by
  intro ns
  induction ns with
  | nil => intro d res k _; rfl
  | cons n rest ih =>
    intro d res k hk
    rcases phase_step_cases env summary d res n with h | h | ⟨j, h⟩
    · simp [run_loop, h]
    · simp only [run_loop, h]
      exact ih d res k (fun m hm => hk m (List.mem_cons_of_mem n hm))
    · simp only [run_loop, h]
      rw [ih _ _ k (fun m hm => hk m (List.mem_cons_of_mem n hm))]
      exact dget_dset_ne d (fase_key n) k (DVal.jsonv j) (hk n (List.mem_cons_self n rest))

/-- Every key the loop changes is a phase key holding a parsed payload. -/
theorem run_loop_dget_all (env : PipelineEnv) (summary : String) :
    ∀ (ns : List Nat) (d : DataMap) (res : List (String × RVal)) (k : String),
      dget (run_loop env summary ns d res).1 k = dget d k ∨
      (∃ j, dget (run_loop env summary ns d res).1 k = some (DVal.jsonv j) ∧
        ∃ n ∈ ns, k = fase_key n) := by
  intro ns
  induction ns with
  | nil => intro d res k; exact Or.inl rfl
  | cons n rest ih =>
    intro d res k
    rcases phase_step_cases env summary d res n with h | h | ⟨j, h⟩
    · simp [run_loop, h]
    · simp only [run_loop, h]
      rcases ih d res k with h' | ⟨j, h', n', hn', hk⟩
      · exact Or.inl h'
      · exact Or.inr ⟨j, h', n', List.mem_cons_of_mem n hn', hk⟩
    · simp only [run_loop, h]
      rcases ih (dset d (fase_key n) (DVal.jsonv j)) (res ++ [(fase_key n, RVal.payload j)]) k
        with h' | ⟨j', h', n', hn', hk⟩
      · by_cases hkf : k = fase_key n
        · subst hkf
          rw [dget_dset_self] at h'
          exact Or.inr ⟨j, h', n, List.mem_cons_self n rest, rfl⟩
        · rw [dget_dset_ne d (fase_key n) k (DVal.jsonv j) hkf] at h'
          exact Or.inl h'
      · exact Or.inr ⟨j', h', n', List.mem_cons_of_mem n hn', hk⟩

/-- On the non-exception path, the loop appends result entries keyed by
phase keys only. -/
theorem run_loop_res_keys (env : PipelineEnv) (summary : String) :
    ∀ (ns : List Nat) (d : DataMap) (res res' : List (String × RVal)) (d' : DataMap),
      run_loop env summary ns d res = (d', some res') →
      ∃ tl, res' = res ++ tl ∧ ∀ p ∈ tl, ∃ n ∈ ns, p.1 = fase_key n := by
  intro ns
  induction ns with
  | nil =>
    intro d res res' d' h
    simp only [run_loop, Prod.mk.injEq] at h
    obtain ⟨rfl, hres⟩ := h
    obtain rfl := Option.some.inj hres
    exact ⟨[], (List.append_nil res).symm, by simp⟩
  | cons n rest ih =>
    intro d res res' d' h
    rcases phase_step_cases env summary d res n with hc | hc | ⟨j, hc⟩
    · rw [run_loop, hc] at h
      exact absurd (congrArg Prod.snd h) (by simp)
    · rw [run_loop, hc] at h
      obtain ⟨tl, htl, hkeys⟩ := ih d res res' d' h
      exact ⟨tl, htl, fun p hp =>
        (hkeys p hp).imp fun m hm => ⟨List.mem_cons_of_mem n hm.1, hm.2⟩⟩
    · rw [run_loop, hc] at h
      obtain ⟨tl, htl, hkeys⟩ := ih _ _ res' d' h
      refine ⟨(fase_key n, RVal.payload j) :: tl, by simpa using htl, ?_⟩
      intro p hp
      rcases List.mem_cons.mp hp with rfl | hp'
      · exact ⟨n, List.mem_cons_self n rest, rfl⟩
      · exact ((hkeys p hp').imp fun m hm => ⟨List.mem_cons_of_mem n hm.1, hm.2⟩)

/-- A loop in which every phase soft-fails finishes with nothing changed. -/
theorem run_loop_all_soft_fail (env : PipelineEnv) (summary : String)
    (hfail : ∀ n pr, soft_fails env n pr) :
    ∀ (ns : List Nat), (∀ n ∈ ns, 1 ≤ n ∧ n ≤ 9) →
      ∀ (d : DataMap) (res : List (String × RVal)),
        run_loop env summary ns d res = (d, some res) := by
  intro ns
  induction ns with
  | nil => intro _ d res; rfl
  | cons n rest ih =>
    intro hrange d res
    have hn := hrange n (List.mem_cons_self n rest)
    have hpr := generate_phase_prompt_isSome n d summary hn.1 hn.2
    rw [run_loop, phase_step_soft_fail env summary d res n _ hpr (hfail n _)]
    exact ih (fun m hm => hrange m (List.mem_cons_of_mem n hm)) d res

/-! ## Helper equations for the assembled pipeline -/

/-- Unfolding of the configured run in terms of the named projections. -/
theorem generate_analysis_configured (env : PipelineEnv) (data : DataMap) :
    generate_analysis ModelAttr.configured env data =
      match run_loop env (summary_of env data) phases data [] with
      | (d', Option.none) => (d', AnalysisResult.fallback (create_fallback_analysis d'))
      | (d', some results) =>
        if results.isEmpty then
          (d', AnalysisResult.fallback (create_fallback_analysis d'))
        else
          (d', AnalysisResult.results (results ++
            [("research_data",
              RVal.research (research_segment_comprehensive env.fb env.beh (seg_of data))),
             ("generated_at", RVal.timestamp)])) := rfl

/-- A configured run whose loop was aborted by an exception returns the
whole-document fallback built from the dict at the abort point. -/
theorem generate_analysis_config_none (env : PipelineEnv) (data d' : DataMap)
    (hrl : run_loop env (summary_of env data) phases data [] = (d', Option.none)) :
    generate_analysis ModelAttr.configured env data =
      (d', AnalysisResult.fallback (create_fallback_analysis d')) := by
  rw [generate_analysis_configured, hrl]

/-- A configured run whose loop finished normally returns the fallback when
nothing succeeded and the accumulated results otherwise. -/
theorem generate_analysis_config_some (env : PipelineEnv) (data d' : DataMap)
    (results : List (String × RVal))
    (hrl : run_loop env (summary_of env data) phases data [] = (d', some results)) :
    generate_analysis ModelAttr.configured env data =
      (if results.isEmpty then (d', AnalysisResult.fallback (create_fallback_analysis d'))
       else (d', AnalysisResult.results (results ++
          [("research_data",
            RVal.research (research_segment_comprehensive env.fb env.beh (seg_of data))),
           ("generated_at", RVal.timestamp)]))) := by
  rw [generate_analysis_configured, hrl]

/-- The caller's dict comes back as whatever the phase loop left. -/
theorem generate_analysis_configured_fst (env : PipelineEnv) (data : DataMap) :
    (generate_analysis ModelAttr.configured env data).1 =
      (run_loop env (summary_of env data) phases data []).1 := by
  rw [generate_analysis_configured]
  rcases h : run_loop env (summary_of env data) phases data [] with ⟨d', out⟩
  cases out with
  | none => rfl
  | some results =>
    by_cases he : results.isEmpty <;> simp [he]

/-- The nine phase keys collide with none of the words the claims mention. -/
theorem fase_key_vocab : ∀ n ∈ phases,
    fase_key n ≠ "provenance" ∧ fase_key n ≠ "origin" ∧
    fase_key n ∉ fallback_top_keys := by decide

/-- The planner applied under the bundle: its keys are the planned
queries. -/
theorem rsc_map_fst (fb : String → FutureBehavior) (beh : String → SearchBehavior)
    (s : String) :
    (research_segment_comprehensive fb beh s).map Prod.fst = research_queries s := by
  simp [research_segment_comprehensive, Function.comp_def]

/-! ## C9 -/

/-- C9: the price-derived monetary fields of the fallback analysis
(`_create_fallback_analysis`, lines 190, 238, 358, 418-448) are monotone in
a coercible numeric `preco_float`: for two requests whose prices satisfy
p1 ≤ p2, every `int(preco * k)` field produced for p1 is at most the
corresponding field for p2. -/
theorem C9_fallback_monetary_monotone (d1 d2 : DataMap) (p1 p2 : ℚ)
    (h1 : dget d1 "preco_float" = some (DVal.num p1))
    (h2 : dget d2 "preco_float" = some (DVal.num p2))
    (hle : p1 ≤ p2) :
    (create_fallback_analysis d1).ticket_medio_compra ≤
        (create_fallback_analysis d2).ticket_medio_compra ∧
    (create_fallback_analysis d1).concorrente_preco_lo ≤
        (create_fallback_analysis d2).concorrente_preco_lo ∧
    (create_fallback_analysis d1).concorrente_preco_hi ≤
        (create_fallback_analysis d2).concorrente_preco_hi ∧
    (create_fallback_analysis d1).ticket_medio_segmento ≤
        (create_fallback_analysis d2).ticket_medio_segmento ∧
    (create_fallback_analysis d1).conservador_ticket ≤
        (create_fallback_analysis d2).conservador_ticket ∧
    (create_fallback_analysis d1).conservador_faturamento ≤
        (create_fallback_analysis d2).conservador_faturamento ∧
    (create_fallback_analysis d1).realista_ticket ≤
        (create_fallback_analysis d2).realista_ticket ∧
    (create_fallback_analysis d1).realista_faturamento ≤
        (create_fallback_analysis d2).realista_faturamento ∧
    (create_fallback_analysis d1).otimista_ticket ≤
        (create_fallback_analysis d2).otimista_ticket ∧
    (create_fallback_analysis d1).otimista_faturamento ≤
        (create_fallback_analysis d2).otimista_faturamento := by
  have e1 : coerce_preco d1 = p1 := by unfold coerce_preco; rw [h1]
  have e2 : coerce_preco d2 = p2 := by unfold coerce_preco; rw [h2]
  have key : ∀ c : ℚ, 0 ≤ c →
      pytrunc (coerce_preco d1 * c) ≤ pytrunc (coerce_preco d2 * c) := by
    intro c hc
    rw [e1, e2]
    exact pytrunc_mono (mul_le_mul_of_nonneg_right hle hc)
  have base : pytrunc (coerce_preco d1) ≤ pytrunc (coerce_preco d2) := by
    rw [e1, e2]; exact pytrunc_mono hle
  exact ⟨key _ (by norm_num), key _ (by norm_num), key _ (by norm_num), base, base,
    key _ (by norm_num), base, key _ (by norm_num), key _ (by norm_num),
    key _ (by norm_num)⟩

/-- Witness for C9 at prices 100 and 200. -/
theorem C9_fallback_monetary_monotone_witness :
    dget [("preco_float", DVal.num 100)] "preco_float" = some (DVal.num 100) ∧
    dget [("preco_float", DVal.num 200)] "preco_float" = some (DVal.num 200) ∧
    (100 : ℚ) ≤ 200 ∧
    (create_fallback_analysis [("preco_float", DVal.num 100)]).ticket_medio_compra ≤
      (create_fallback_analysis [("preco_float", DVal.num 200)]).ticket_medio_compra :=
  ⟨rfl, rfl, by norm_num,
    (C9_fallback_monetary_monotone [("preco_float", DVal.num 100)]
      [("preco_float", DVal.num 200)] 100 200 rfl rfl (by norm_num)).1⟩

/-! ## C8 -/

/-- C8: the planned research-query list (`research_segment_comprehensive`,
lines 95-106) is a pure function of the segment string alone: same derived
segment gives the identical ordered list of ten queries, whatever the other
request fields and whatever the search collaborators do. -/
theorem C8_query_planner_pure (d1 d2 : DataMap)
    (hseg : seg_of d1 = seg_of d2) :
    (research_queries (seg_of d1)).length = 10 ∧
    ∀ (fb1 : String → FutureBehavior) (beh1 : String → SearchBehavior)
      (fb2 : String → FutureBehavior) (beh2 : String → SearchBehavior),
      (research_segment_comprehensive fb1 beh1 (seg_of d1)).map Prod.fst =
        (research_segment_comprehensive fb2 beh2 (seg_of d2)).map Prod.fst := by
  constructor
  · simp [research_queries]
  · intro fb1 beh1 fb2 beh2
    rw [rsc_map_fst, rsc_map_fst, hseg]

/-- Witness for C8: same segment reachable through `segmento` in one request
and `nicho` in the other, with different collaborators. -/
theorem C8_query_planner_pure_witness :
    seg_of [("segmento", DVal.str "fitness")] = seg_of [("nicho", DVal.str "fitness")] ∧
    (research_segment_comprehensive (fun _ => FutureBehavior.raises)
        (fun _ => SearchBehavior.raises) (seg_of [("segmento", DVal.str "fitness")])).map Prod.fst =
      (research_segment_comprehensive quietResearch.1 quietResearch.2
        (seg_of [("nicho", DVal.str "fitness")])).map Prod.fst :=
  ⟨rfl, (C8_query_planner_pure _ _ rfl).2 _ _ _ _⟩

/-! ## C7 -/

/-- C7: the research bundle (`research_segment_comprehensive`, lines
107-121) contains an entry for every planned query; a query whose search
call raises (caught inside `search_internet`, lines 71-73) or whose future
raises (caught in the collection loop, lines 118-120) is mapped to the
empty list, and no failure removes any other query's entry. -/
theorem C7_research_failures_isolated (fb : String → FutureBehavior)
    (beh : String → SearchBehavior) (s q : String)
    (hq : q ∈ research_queries s) :
    ((research_segment_comprehensive fb beh s).map Prod.fst = research_queries s) ∧
    (fb q = FutureBehavior.raises → (q, []) ∈ research_segment_comprehensive fb beh s) ∧
    (fb q = FutureBehavior.normal → beh q = SearchBehavior.raises →
      (q, []) ∈ research_segment_comprehensive fb beh s) ∧
    (∀ rs, fb q = FutureBehavior.normal → beh q = SearchBehavior.ok rs →
      (q, rs) ∈ research_segment_comprehensive fb beh s) := by
  refine ⟨rsc_map_fst fb beh s, ?_, ?_, ?_⟩
  · intro hfb
    have hmem := List.mem_map_of_mem (fun q =>
      (q, match fb q with
          | FutureBehavior.normal => search_internet beh q
          | FutureBehavior.raises => [])) hq
    simpa [research_segment_comprehensive, hfb] using hmem
  · intro hfb hbeh
    have hmem := List.mem_map_of_mem (fun q =>
      (q, match fb q with
          | FutureBehavior.normal => search_internet beh q
          | FutureBehavior.raises => [])) hq
    simpa [research_segment_comprehensive, hfb, search_internet, hbeh] using hmem
  · intro rs hfb hbeh
    have hmem := List.mem_map_of_mem (fun q =>
      (q, match fb q with
          | FutureBehavior.normal => search_internet beh q
          | FutureBehavior.raises => [])) hq
    simpa [research_segment_comprehensive, hfb, search_internet, hbeh] using hmem

/-- Witness for C7: ten planned queries of which three raise; a raising one
still gets its (empty) entry. -/
theorem C7_research_failures_isolated_witness :
    ("fitness mercado brasileiro 2023 2025" ∈ research_queries "fitness") ∧
    ((fun q => if q = "fitness mercado brasileiro 2023 2025" ∨
          q = "fitness preços produtos serviços" ∨
          q = "fitness palavras chave SEO" then FutureBehavior.raises
        else FutureBehavior.normal) "fitness mercado brasileiro 2023 2025"
      = FutureBehavior.raises) ∧
    ("fitness mercado brasileiro 2023 2025", ([] : List RResult)) ∈
      research_segment_comprehensive
        (fun q => if q = "fitness mercado brasileiro 2023 2025" ∨
            q = "fitness preços produtos serviços" ∨
            q = "fitness palavras chave SEO" then FutureBehavior.raises
          else FutureBehavior.normal)
        quietResearch.2 "fitness" :=
  ⟨by decide, rfl,
    (C7_research_failures_isolated _ quietResearch.2 "fitness" _ (by decide)).2.1 rfl⟩

/-- Result keys of a successful run all come from the phase loop. -/
theorem results_key_mem (env : PipelineEnv) (data d' : DataMap)
    (results : List (String × RVal)) (w : String)
    (hrl : run_loop env (summary_of env data) phases data [] = (d', some results))
    (hmem : w ∈ results.map Prod.fst) :
    ∃ n ∈ phases, w = fase_key n := by
  obtain ⟨tl, htl, hkeys⟩ := run_loop_res_keys _ _ _ _ _ _ _ hrl
  rw [List.nil_append] at htl
  subst htl
  obtain ⟨p, hp, hpe⟩ := List.mem_map.mp hmem
  obtain ⟨n, hn, he⟩ := hkeys p hp
  exact ⟨n, hn, by rw [← hpe, he]⟩

/-! ## C1 -/

/-- C1 counterexample: with the backend unconfigured (`GEMINI_API_KEY`
absent, so `__init__` never assigns `self.model`), `generate_analysis` on
the Scenario A request does not return a fallback document at all — the
attribute read at line 2420 raises, and the value a caller could ever get
from the guarded branch is the bare `{"error": ...}` mapping. -/
theorem C1_counterexample :
    generate_analysis (gemini_init false true) envAllOk dataA =
      (dataA, AnalysisResult.attrError) ∧
    "provenance" ∉ resultKeys (generate_analysis (gemini_init false true) envAllOk dataA).2 :=
  ⟨rfl, by decide⟩

/-- C1 as amended: an unconfigured client raises `AttributeError` from
`generate_analysis` (the `{"error": ...}` early return is reachable only
for a set-but-falsy model attribute, and even then is a bare single-key
error mapping, not a document); the fallback analysis — which for
`preco_float = p` carries `ticket_medio_segmento = int(p)` and no
provenance key — is returned from a configured run whenever every phase
response is empty or unparsable, and also whenever a raising backend call
aborts the phase loop (lines 2483-2485 and 2494-2496). -/
theorem C1_unconfigured_behavior :
    (∀ (b : Bool) (env : PipelineEnv) (data : DataMap),
      generate_analysis (gemini_init false b) env data = (data, AnalysisResult.attrError)) ∧
    (∀ (env : PipelineEnv) (data : DataMap),
      generate_analysis ModelAttr.falsyModel env data = (data, AnalysisResult.errorDict) ∧
      resultKeys AnalysisResult.errorDict = ["error"]) ∧
    (∀ (env : PipelineEnv) (data : DataMap) (p : ℚ),
      (∀ n pr, soft_fails env n pr) →
      dget data "preco_float" = some (DVal.num p) →
      generate_analysis ModelAttr.configured env data =
        (data, AnalysisResult.fallback (create_fallback_analysis data)) ∧
      (create_fallback_analysis data).ticket_medio_segmento = pytrunc p ∧
      "provenance" ∉ fallback_top_keys) ∧
    (∀ (env : PipelineEnv) (data d : DataMap),
      run_loop env (summary_of env data) phases data [] = (d, Option.none) →
      generate_analysis ModelAttr.configured env data =
        (d, AnalysisResult.fallback (create_fallback_analysis d))) := by
  refine ⟨fun b env data => rfl, fun env data => ⟨rfl, rfl⟩, ?_,
    fun env data d h => generate_analysis_config_none env data d h⟩
  intro env data p hfail hp
  have hrl := run_loop_all_soft_fail env (summary_of env data) hfail phases
    (by decide) data []
  have hg := generate_analysis_config_some env data data [] hrl
  simp only [List.isEmpty_nil, if_true] at hg
  refine ⟨hg, ?_, by decide⟩
  show pytrunc (coerce_preco data) = pytrunc p
  unfold coerce_preco
  rw [hp]

/-- Witness for C1 at Scenario A (price 497, all phases unusable), plus the
exception-aborted path at an env raising at phase 2. -/
theorem C1_unconfigured_behavior_witness :
    generate_analysis (gemini_init false true) envAllOk dataA =
      (dataA, AnalysisResult.attrError) ∧
    (∀ n pr, soft_fails envAllFail n pr) ∧
    dget dataA "preco_float" = some (DVal.num 497) ∧
    (generate_analysis ModelAttr.configured envAllFail dataA =
        (dataA, AnalysisResult.fallback (create_fallback_analysis dataA)) ∧
      (create_fallback_analysis dataA).ticket_medio_segmento = pytrunc 497 ∧
      "provenance" ∉ fallback_top_keys) ∧
    pytrunc (497 : ℚ) = 497 ∧
    run_loop envExnAt2 (summary_of envExnAt2 dataA) phases dataA [] =
      (dset dataA "fase_1_result" (DVal.jsonv (Json.arr [Json.num "1"])), Option.none) ∧
    generate_analysis ModelAttr.configured envExnAt2 dataA =
      (dset dataA "fase_1_result" (DVal.jsonv (Json.arr [Json.num "1"])),
        AnalysisResult.fallback (create_fallback_analysis
          (dset dataA "fase_1_result" (DVal.jsonv (Json.arr [Json.num "1"]))))) :=
  ⟨C1_unconfigured_behavior.1 true envAllOk dataA,
   fun _ _ => ⟨"x", rfl, Or.inr rfl⟩,
   rfl,
   C1_unconfigured_behavior.2.2.1 envAllFail dataA 497 (fun _ _ => ⟨"x", rfl, Or.inr rfl⟩) rfl,
   rfl,
   rfl,
   C1_unconfigured_behavior.2.2.2 envExnAt2 dataA
     (dset dataA "fase_1_result" (DVal.jsonv (Json.arr [Json.num "1"]))) rfl⟩

/-! ## C2 -/

/-- C2 counterexample: a run in which only phase 1 parses returns a mapping
with `fase_1_result`, `research_data` and `generated_at` only — the other
eight namespaces are absent, not fallback-filled. -/
theorem C2_counterexample :
    resultKeys (generate_analysis ModelAttr.configured envPhase1Only dataA).2 =
      ["fase_1_result", "research_data", "generated_at"] ∧
    "fase_2_result" ∉ resultKeys (generate_analysis ModelAttr.configured envPhase1Only dataA).2 := by
  decide

/-- C2 as amended: a completed configured run returns either the whole
fallback document (when no phase succeeded or an exception escaped the
loop) or a mapping holding one `fase_i_result` key per succeeded phase —
a nonempty subset of the nine — plus `research_data` and `generated_at`;
failed phases contribute no key at all. -/
theorem C2_document_shape (env : PipelineEnv) (data : DataMap) :
    (∃ d' doc, generate_analysis ModelAttr.configured env data =
      (d', AnalysisResult.fallback doc)) ∨
    (∃ d' res, generate_analysis ModelAttr.configured env data =
        (d', AnalysisResult.results (res ++
          [("research_data",
            RVal.research (research_segment_comprehensive env.fb env.beh (seg_of data))),
           ("generated_at", RVal.timestamp)])) ∧
      res ≠ [] ∧ ∀ p ∈ res, ∃ n ∈ phases, p.1 = fase_key n) := by
  rcases hrl : run_loop env (summary_of env data) phases data [] with ⟨d', out⟩
  cases out with
  | none => exact Or.inl ⟨d', _, generate_analysis_config_none env data d' hrl⟩
  | some results =>
    have hg := generate_analysis_config_some env data d' results hrl
    by_cases he : results.isEmpty
    · rw [if_pos he] at hg
      exact Or.inl ⟨d', _, hg⟩
    · rw [if_neg he] at hg
      obtain ⟨tl, htl, hkeys⟩ := run_loop_res_keys _ _ _ _ _ _ _ hrl
      rw [List.nil_append] at htl
      subst htl
      refine Or.inr ⟨d', results, hg, ?_, hkeys⟩
      intro hcontra
      rw [hcontra] at he
      exact he rfl

/-! ## C3 -/

/-- C3 counterexample: even a run in which all nine phases succeed returns
no `provenance` key — the code never attaches an origin marker. -/
theorem C3_counterexample :
    resultKeys (generate_analysis ModelAttr.configured envAllOk dataA).2 =
      ["fase_1_result", "fase_2_result", "fase_3_result", "fase_4_result",
       "fase_5_result", "fase_6_result", "fase_7_result", "fase_8_result",
       "fase_9_result", "research_data", "generated_at"] ∧
    "provenance" ∉ resultKeys (generate_analysis ModelAttr.configured envAllOk dataA).2 := by
  decide

/-- C3 as amended: no run outcome carries a `provenance` (or `origin`)
field; a successful run returns the per-phase payloads with `research_data`
and `generated_at`, a fully failed or aborted run returns the fallback
dict, an unconfigured one an error, and nothing distinguishes
generated / partially-generated / fallback in the returned mapping. -/
theorem C3_no_provenance_field (model : ModelAttr) (env : PipelineEnv) (data : DataMap) :
    "provenance" ∉ resultKeys (generate_analysis model env data).2 ∧
    "origin" ∉ resultKeys (generate_analysis model env data).2 := by
  cases model with
  | absent => constructor <;> simp [generate_analysis, resultKeys]
  | falsyModel => constructor <;> simp [generate_analysis, resultKeys]
  | configured =>
    rcases hrl : run_loop env (summary_of env data) phases data [] with ⟨d', out⟩
    cases out with
    | none =>
      rw [generate_analysis_config_none env data d' hrl]
      constructor
      · show "provenance" ∉ fallback_top_keys
        decide
      · show "origin" ∉ fallback_top_keys
        decide
    | some results =>
      have hg := generate_analysis_config_some env data d' results hrl
      by_cases he : results.isEmpty
      · rw [if_pos he] at hg
        rw [hg]
        constructor
        · show "provenance" ∉ fallback_top_keys
          decide
        · show "origin" ∉ fallback_top_keys
          decide
      · rw [if_neg he] at hg
        rw [hg]
        simp only [resultKeys, List.map_append]
        constructor <;>
        · intro hmem
          rcases List.mem_append.mp hmem with h1 | h2
          · obtain ⟨n, hn, hw⟩ := results_key_mem env data d' results _ hrl h1
            have := fase_key_vocab n hn
            simp only [hw.symm] at this
            tauto
          · simp at h2

/-! ## C4 -/

/-- C4 counterexample: phase 1 succeeds, the backend call of phase 2
raises.  The run is aborted to the whole-document fallback: phases 3-9 are
never attempted and the phase-1 payload is absent from the returned
document. -/
theorem C4_counterexample :
    resultKeys (generate_analysis ModelAttr.configured envExnAt2 dataA).2 =
      fallback_top_keys ∧
    "fase_1_result" ∉ fallback_top_keys ∧
    "fase_3_result" ∉ fallback_top_keys := by
  decide

/-- C4 as amended: a raising backend call at phase i propagates out of the
phase loop (lines 2454, 2494): phases i+1..9 are not attempted and the run
returns the whole-document fallback built from the request dict as mutated
so far — payloads of phases that succeeded before i survive only as keys
inserted into the caller's dict, not in the returned document.  Only an
empty or unparsable response marks phase i alone as skipped. -/
theorem C4_backend_exception_aborts (env : PipelineEnv) :
    (∀ (summary : String) (d : DataMap) (res : List (String × RVal)) (n : Nat)
        (rest : List Nat) (pr : String),
      generate_phase_prompt n d summary = some pr →
      env.gen n pr = GenResp.exn →
      run_loop env summary (n :: rest) d res = (d, Option.none)) ∧
    (∀ (data d' : DataMap),
      run_loop env (summary_of env data) phases data [] = (d', Option.none) →
      generate_analysis ModelAttr.configured env data =
        (d', AnalysisResult.fallback (create_fallback_analysis d')) ∧
      resultKeys (generate_analysis ModelAttr.configured env data).2 = fallback_top_keys ∧
      ∀ n ∈ phases, fase_key n ∉ fallback_top_keys) := by
  refine ⟨fun summary d res n rest pr hpr hexn =>
    run_loop_exn env summary d res n rest pr hpr hexn, ?_⟩
  intro data d' hrl
  have hg := generate_analysis_config_none env data d' hrl
  exact ⟨hg, by rw [hg]; rfl, fun n hn => (fase_key_vocab n hn).2.2⟩

/-- Witness for C4: concrete run with success at phase 1 and an exception
at phase 2. -/
theorem C4_backend_exception_aborts_witness :
    run_loop envExnAt2 "" [2, 3] dataA [] = (dataA, Option.none) ∧
    run_loop envExnAt2 (summary_of envExnAt2 dataA) phases dataA [] =
      (dset dataA "fase_1_result" (DVal.jsonv (Json.arr [Json.num "1"])), Option.none) ∧
    generate_analysis ModelAttr.configured envExnAt2 dataA =
      (dset dataA "fase_1_result" (DVal.jsonv (Json.arr [Json.num "1"])),
        AnalysisResult.fallback (create_fallback_analysis
          (dset dataA "fase_1_result" (DVal.jsonv (Json.arr [Json.num "1"]))))) ∧
    "fase_1_result" ∉ fallback_top_keys :=
  ⟨(C4_backend_exception_aborts envExnAt2).1 "" dataA [] 2 [3] _ rfl rfl,
   rfl,
   ((C4_backend_exception_aborts envExnAt2).2 dataA _ rfl).1,
   ((C4_backend_exception_aborts envExnAt2).2 dataA
     (dset dataA "fase_1_result" (DVal.jsonv (Json.arr [Json.num "1"]))) rfl).2.2 1 (by decide)⟩

/-! ## C10 -/

/-- C10 counterexample: after a run in which phase 1 succeeds, the caller's
request dict contains a `fase_1_result` key that was not there before —
`generate_analysis` mutates its argument (line 2480). -/
theorem C10_counterexample :
    (dget (generate_analysis ModelAttr.configured envPhase1Only dataA).1 "fase_1_result").isSome
      = true ∧
    (dget dataA "fase_1_result").isSome = false := by
  decide

/-- C10 as amended: the pipeline mutates the request dict exactly by
storing each succeeded phase's parsed payload under `fase_{i}_result`; keys
outside the nine phase keys are never added, removed or changed, and the
dict is untouched on the unconfigured paths. -/
theorem C10_request_dict_mutation (model : ModelAttr) (env : PipelineEnv) (data : DataMap) :
    (∀ k, (∀ n ∈ phases, k ≠ fase_key n) →
      dget (generate_analysis model env data).1 k = dget data k) ∧
    (∀ k, dget (generate_analysis model env data).1 k = dget data k ∨
      ∃ j, dget (generate_analysis model env data).1 k = some (DVal.jsonv j) ∧
        ∃ n ∈ phases, k = fase_key n) := by
  cases model with
  | absent => exact ⟨fun k _ => rfl, fun k => Or.inl rfl⟩
  | falsyModel => exact ⟨fun k _ => rfl, fun k => Or.inl rfl⟩
  | configured =>
    constructor
    · intro k hk
      rw [generate_analysis_configured_fst]
      exact run_loop_dget_other env (summary_of env data) phases data [] k hk
    · intro k
      rw [generate_analysis_configured_fst]
      exact run_loop_dget_all env (summary_of env data) phases data [] k

/-- Witness for C10: the `segmento` key survives a run unchanged. -/
theorem C10_request_dict_mutation_witness :
    (∀ n ∈ phases, "segmento" ≠ fase_key n) ∧
    dget (generate_analysis ModelAttr.configured envPhase1Only dataA).1 "segmento" =
      dget dataA "segmento" :=
  ⟨by decide,
   (C10_request_dict_mutation ModelAttr.configured envPhase1Only dataA).1 "segmento" (by decide)⟩

/-! ## C5 -/

theorem strJoin_cons (x : String) (l : List String) :
    strJoin (x :: l) = x ++ strJoin l := rfl

theorem strJoin_append (a b : List String) :
    strJoin (a ++ b) = strJoin a ++ strJoin b := by
  induction a with
  | nil => simp [strJoin]
  | cons x a' ih =>
    rw [List.cons_append, strJoin_cons, strJoin_cons, ih, String.append_assoc]

/-- Every stored prior-phase payload appears, serialized, in the context
part of a later phase's prompt. -/
theorem context_for_contains (d : DataMap) (m i : Nat) (v : DVal)
    (h1 : 1 ≤ i) (h2 : i < m) (hv : dget d (fase_key i) = some v) :
    ∃ a b, context_for d m = a ++ (context_chunk i v ++ b) := by
  have hmem : i ∈ (List.range (m - 1)).map (· + 1) := by
    refine List.mem_map.mpr ⟨i - 1, List.mem_range.mpr (by omega), by omega⟩
  obtain ⟨s, t, hst⟩ := List.append_of_mem hmem
  unfold context_for
  rw [hst, List.map_append, List.map_cons, strJoin_append, strJoin_cons, hv]
  exact ⟨_, _, rfl⟩

/-- The phase loop reads the environment only through `gen` at the phases
it runs. -/
theorem phase_step_gen_congr (env1 env2 : PipelineEnv) (summary : String)
    (st : DataMap × List (String × RVal)) (n : Nat)
    (h : ∀ pr, env1.gen n pr = env2.gen n pr) :
    phase_step env1 summary st n = phase_step env2 summary st n := by
  unfold phase_step
  cases generate_phase_prompt n st.1 summary with
  | none => rfl
  | some pr => simp only; rw [h pr]

theorem run_loop_gen_congr (env1 env2 : PipelineEnv) (summary : String) :
    ∀ (ns : List Nat), (∀ m pr, m ∈ ns → env1.gen m pr = env2.gen m pr) →
      ∀ d res, run_loop env1 summary ns d res = run_loop env2 summary ns d res := by
  intro ns
  induction ns with
  | nil => intro _ d res; rfl
  | cons n rest ih =>
    intro h d res
    rw [run_loop, run_loop,
      phase_step_gen_congr env1 env2 summary (d, res) n
        (fun pr => h n pr (List.mem_cons_self n rest))]
    cases phase_step env2 summary (d, res) n with
    | none => rfl
    | some st' => exact ih (fun m pr hm => h m pr (List.mem_cons_of_mem n hm)) st'.1 st'.2

/-- C5: a phase whose response text cannot be parsed is skipped — the next
phase still executes from an unchanged state; the prompt of every later
phase contains the serialized payload of each stored (succeeded) prior
phase; and the rest of the run is bit-for-bit independent of what the
failed phase's raw text was (so it never enters any later context). -/
theorem C5_parse_failure_isolation (env : PipelineEnv) (summary : String)
    (d : DataMap) (res : List (String × RVal)) (n : Nat) (pr t : String)
    (hpr : generate_phase_prompt n d summary = some pr)
    (hok : env.gen n pr = GenResp.ok t)
    (hne : t ≠ "")
    (hfail : parse_phase_text t = Option.none) :
    (∀ rest, run_loop env summary (n :: rest) d res = run_loop env summary rest d res) ∧
    (∀ m, 1 ≤ m → m ≤ 9 → ∀ i v, 1 ≤ i → i < m → dget d (fase_key i) = some v →
      ∃ a b, generate_phase_prompt m d summary = some (a ++ (context_chunk i v ++ b))) ∧
    (∀ gen2 : Nat → String → GenResp,
      (∀ m pr', m ≠ n → gen2 m pr' = env.gen m pr') →
      (∃ t2, gen2 n pr = GenResp.ok t2 ∧ (t2 = "" ∨ parse_phase_text t2 = Option.none)) →
      ∀ rest, n ∉ rest →
        run_loop { env with gen := gen2 } summary (n :: rest) d res =
          run_loop env summary (n :: rest) d res) := by
  have hskip : phase_step env summary (d, res) n = some (d, res) :=
    phase_step_soft_fail env summary d res n pr hpr ⟨t, hok, Or.inr hfail⟩
  refine ⟨?_, ?_, ?_⟩
  · intro rest
    rw [run_loop, hskip]
  · intro m hm1 hm9 i v hi1 him hv
    obtain ⟨a, b, hab⟩ := context_for_contains d m i v hi1 him hv
    refine ⟨base_prompt_format
        (pyStr (dgetD d "segmento" (DVal.str "")))
        (pyStr (dgetD d "produto" (DVal.str "")))
        (pyStr (dgetD d "preco" (DVal.str "")))
        (pyStr (dgetD d "publico" (DVal.str "")))
        (pyStr (dgetD d "objetivo_receita" (DVal.str "")))
        (pyStr (dgetD d "orcamento_marketing" (DVal.str "")))
        summary ++ phase_prompt_text m ++ a, b, ?_⟩
    rw [generate_phase_prompt_isSome m d summary hm1 hm9, hab]
    simp [String.append_assoc]
  · intro gen2 hagree hsoft2 rest hnotin
    have hskip2 : phase_step { env with gen := gen2 } summary (d, res) n = some (d, res) :=
      phase_step_soft_fail _ summary d res n pr hpr hsoft2
    rw [run_loop, hskip2, run_loop, hskip]
    exact run_loop_gen_congr _ env summary rest
      (fun m pr' hm => hagree m pr' (fun he => hnotin (he ▸ hm))) d res

/-- Witness for C5: phase 2 of a run (after a stored phase-1 payload)
returns unparsable text; phase 3 still runs on the unchanged state. -/
theorem C5_parse_failure_isolation_witness :
    ("x" : String) ≠ "" ∧
    parse_phase_text "x" = Option.none ∧
    run_loop envPhase1Only "" [2, 3] dataB [] = run_loop envPhase1Only "" [3] dataB [] :=
  ⟨by decide, rfl,
    (C5_parse_failure_isolation envPhase1Only "" dataB [] 2 _ "x" rfl rfl (by decide) rfl).1 [3]⟩

/-! ## C6: infrastructure for the parser-consumption invariant -/

theorem nlBt_tail (c : Char) (l : List Char) (h : nlBt (c :: l) = false) :
    nlBt l = false := by
  cases l with
  | nil => rfl
  | cons d l' =>
    rw [nlBt, Bool.or_eq_false_iff] at h
    exact h.2

theorem nlBt_append_false : ∀ (a b : List Char), nlBt a = false → nlBt b = false →
    (a.getLast? = some '\n' → b.head? ≠ some btChar) → nlBt (a ++ b) = false := by
  intro a
  induction a with
  | nil => intro b _ hb _; simpa using hb
  | cons c a' ih =>
    intro b ha hb hbd
    cases a' with
    | nil =>
      cases b with
      | nil => simpa using ha
      | cons d b' =>
        show nlBt (c :: d :: b') = false
        rw [nlBt, Bool.or_eq_false_iff]
        refine ⟨?_, hb⟩
        rw [Bool.and_eq_false_iff]
        by_cases hc : c = '\n'
        · refine Or.inr ?_
          have hd : d ≠ btChar := by
            intro hdd
            exact hbd (by rw [hc]; rfl) (by rw [hdd]; rfl)
          simpa using hd
        · exact Or.inl (by simpa using hc)
    | cons c2 a'' =>
      show nlBt (c :: c2 :: (a'' ++ b)) = false
      rw [nlBt, Bool.or_eq_false_iff]
      rw [nlBt, Bool.or_eq_false_iff] at ha
      refine ⟨ha.1, ?_⟩
      exact ih b ha.2 hb (fun hl => hbd (by rw [List.getLast?_cons_cons]; exact hl))

theorem nlBt_of_no_bt : ∀ (l : List Char), (∀ c ∈ l, c ≠ btChar) → nlBt l = false := by
  intro l
  induction l with
  | nil => intro _; rfl
  | cons c l' ih =>
    intro h
    cases l' with
    | nil => rfl
    | cons d l'' =>
      rw [nlBt, Bool.or_eq_false_iff]
      constructor
      · rw [Bool.and_eq_false_iff]
        exact Or.inr (by simpa using h d (by simp))
      · exact ih (fun x hx => h x (List.mem_cons_of_mem c hx))

theorem nlBt_of_no_nl : ∀ (l : List Char), (∀ c ∈ l, c ≠ '\n') → nlBt l = false := by
  intro l
  induction l with
  | nil => intro _; rfl
  | cons c l' ih =>
    intro h
    cases l' with
    | nil => rfl
    | cons d l'' =>
      rw [nlBt, Bool.or_eq_false_iff]
      constructor
      · rw [Bool.and_eq_false_iff]
        exact Or.inl (by simpa using h c (by simp))
      · exact ih (fun x hx => h x (List.mem_cons_of_mem c hx))

theorem goodseg_nil : GoodSeg [] := ⟨rfl, by simp, by simp⟩

theorem goodseg_append {a b : List Char} (ha : GoodSeg a) (hb : GoodSeg b) :
    GoodSeg (a ++ b) := by
  obtain ⟨ha1, ha2, ha3⟩ := ha
  obtain ⟨hb1, hb2, hb3⟩ := hb
  refine ⟨nlBt_append_false a b ha1 hb1 (fun hl => absurd hl ha2), ?_, ?_⟩
  · by_cases hbe : b = []
    · subst hbe; simpa using ha2
    · rw [List.getLast?_append_of_ne_nil _ hbe]; exact hb2
  · cases a with
    | nil => simpa using hb3
    | cons c a' => simpa using ha3

theorem ws_ne_bt {c : Char} (h : isWsChar c = true) : c ≠ btChar := by
  intro hc
  subst hc
  simp [isWsChar, btChar] at h

theorem goodseg_ws_append {a b : List Char} (hws : ∀ c ∈ a, isWsChar c = true)
    (hb : GoodSeg b) (hbe : b ≠ []) : GoodSeg (a ++ b) := by
  obtain ⟨hb1, hb2, hb3⟩ := hb
  have hnb : nlBt a = false := nlBt_of_no_bt a (fun c hc => ws_ne_bt (hws c hc))
  refine ⟨nlBt_append_false a b hnb hb1 (fun _ => hb3), ?_, ?_⟩
  · rw [List.getLast?_append_of_ne_nil _ hbe]; exact hb2
  · cases a with
    | nil => simpa using hb3
    | cons c a' =>
      simpa using ws_ne_bt (hws c (by simp))

theorem goodseg_cons {c : Char} {l : List Char} (hnl : c ≠ '\n') (hbt : c ≠ btChar)
    (hl : GoodSeg l) : GoodSeg (c :: l) := by
  obtain ⟨h1, h2, h3⟩ := hl
  refine ⟨?_, ?_, by simpa using hbt⟩
  · cases l with
    | nil => rfl
    | cons d l' =>
      rw [nlBt, Bool.or_eq_false_iff]
      exact ⟨by rw [Bool.and_eq_false_iff]; exact Or.inl (by simpa using hnl), h1⟩
  · cases l with
    | nil => simpa using hnl
    | cons d l' => rw [List.getLast?_cons_cons]; exact h2

theorem getLast?_mem_self : ∀ (l : List Char) (x : Char), l.getLast? = some x → x ∈ l := by
  intro l
  induction l with
  | nil => intro x h; simp at h
  | cons c l' ih =>
    intro x h
    cases l' with
    | nil =>
      simp only [List.getLast?_singleton, Option.some.injEq] at h
      subst h
      simp
    | cons d l'' =>
      rw [List.getLast?_cons_cons] at h
      exact List.mem_cons_of_mem c (ih x h)

theorem goodseg_of_chars {l : List Char} (h : ∀ c ∈ l, c ≠ '\n' ∧ c ≠ btChar) :
    GoodSeg l := by
  refine ⟨nlBt_of_no_nl l (fun c hc => (h c hc).1), ?_, ?_⟩
  · intro hc
    exact (h '\n' (getLast?_mem_self l '\n' hc)).1 rfl
  · intro hc
    cases l with
    | nil => simp at hc
    | cons d l' =>
      simp only [List.head?_cons, Option.some.injEq] at hc
      exact (h d (by simp)).2 hc

/-! ## Consumption shapes of the non-recursive scanners -/

theorem skipWs_split : ∀ cs : List Char,
    ∃ pre, cs = pre ++ skipWs cs ∧ ∀ c ∈ pre, isWsChar c = true := by
  intro cs
  induction cs with
  | nil => exact ⟨[], rfl, by simp⟩
  | cons c rest ih =>
    by_cases h : isWsChar c = true
    · obtain ⟨pre, hpre, hws⟩ := ih
      refine ⟨c :: pre, ?_, ?_⟩
      · rw [show skipWs (c :: rest) = skipWs rest from by simp [skipWs, h]]
        rw [List.cons_append, ← hpre]
      · intro x hx
        rcases List.mem_cons.mp hx with rfl | hx'
        · exact h
        · exact hws x hx'
    · refine ⟨[], ?_, by simp⟩
      simp [skipWs, h]

theorem skipWs_eq_nil : ∀ cs : List Char, skipWs cs = [] →
    ∀ c ∈ cs, isWsChar c = true := by
  intro cs
  induction cs with
  | nil => intro _ c hc; simp at hc
  | cons c rest ih =>
    intro h x hx
    by_cases hws : isWsChar c = true
    · rw [show skipWs (c :: rest) = skipWs rest from by simp [skipWs, hws]] at h
      rcases List.mem_cons.mp hx with rfl | hx'
      · exact hws
      · exact ih h x hx'
    · rw [show skipWs (c :: rest) = c :: rest from by simp [skipWs, hws]] at h
      cases h

theorem isPrefixOf_exists : ∀ (lit cs : List Char), lit.isPrefixOf cs = true →
    cs = lit ++ cs.drop lit.length := by
  intro lit
  induction lit with
  | nil => intro cs _; simp
  | cons a l' ih =>
    intro cs h
    cases cs with
    | nil => simp [List.isPrefixOf] at h
    | cons b cs' =>
      rw [List.isPrefixOf, Bool.and_eq_true] at h
      obtain ⟨hab, hpre⟩ := h
      have hab' : a = b := by simpa using hab
      subst hab'
      simpa using ih cs' hpre

theorem expectLit_split (lit cs rest : List Char) (h : expectLit lit cs = some rest) :
    cs = lit ++ rest := by
  unfold expectLit at h
  split at h
  · next hpre =>
    obtain rfl := Option.some.inj h
    exact isPrefixOf_exists lit cs hpre
  · cases h

theorem isHexChar_ne_nl {c : Char} (h : isHexChar c = true) : c ≠ '\n' := by
  intro hc; subst hc; simp [isHexChar] at h

theorem isSimpleEscape_ne_nl {c : Char} (h : isSimpleEscape c = true) : c ≠ '\n' := by
  intro hc; subst hc; simp [isSimpleEscape] at h

theorem isDigit_ne_nl {c : Char} (h : c.isDigit = true) : c ≠ '\n' := by
  intro hc; subst hc; simp [Char.isDigit] at h

theorem isDigit_ne_bt {c : Char} (h : c.isDigit = true) : c ≠ btChar := by
  intro hc; subst hc; simp [Char.isDigit, btChar] at h

/-- Shape of a successful string-body scan: the body is exactly the input
up to the closing quote, and (strict mode) contains no raw newline. -/
theorem parseStringBody_split : ∀ (cs : List Char) (body rest : List Char),
    parseStringBody cs = some (body, rest) →
    cs = body ++ '"' :: rest ∧ ∀ c ∈ body, c ≠ '\n' := by
  intro cs
  induction cs using parseStringBody.induct with
  | case1 =>
    intro body rest h
    rw [parseStringBody.eq_def] at h
    simp at h
  | case2 cs =>
    intro body rest h
    rw [parseStringBody.eq_def] at h
    simp at h
    obtain ⟨rfl, rfl⟩ := h
    exact ⟨by simp, by simp⟩
  | case3 hne =>
    intro body rest h
    rw [parseStringBody.eq_def] at h
    simp at h
  | case4 h1 h2 h3 h4 cstl hhex hnone hne ih =>
    intro body rest h
    rw [parseStringBody.eq_def] at h
    simp [hhex, hnone] at h
  | case5 h1 h2 h3 h4 cstl hhex body0 rest0 hsome hne ih =>
    intro body rest h
    rw [parseStringBody.eq_def] at h
    simp [hhex, hsome] at h
    obtain ⟨rfl, rfl⟩ := h
    obtain ⟨hsplit, hchars⟩ := ih body0 rest0 hsome
    have hxs : (isHexChar h1 && isHexChar h2 && isHexChar h3 && isHexChar h4) = true := hhex
    simp only [Bool.and_eq_true] at hxs
    refine ⟨by simp [hsplit], ?_⟩
    intro c hc
    simp only [List.mem_cons] at hc
    rcases hc with rfl | rfl | rfl | rfl | rfl | rfl | hc
    · decide
    · decide
    · exact isHexChar_ne_nl hxs.1.1.1
    · exact isHexChar_ne_nl hxs.1.1.2
    · exact isHexChar_ne_nl hxs.1.2
    · exact isHexChar_ne_nl hxs.2
    · exact hchars c hc
  | case6 h1 h2 h3 h4 cstl hhex hne =>
    intro body rest h
    rw [parseStringBody.eq_def] at h
    simp [hhex] at h
  | case7 cs hshape hne =>
    intro body rest h
    rcases cs with _ | ⟨a, _ | ⟨b, _ | ⟨c, _ | ⟨d, tl⟩⟩⟩⟩
    · rw [parseStringBody.eq_def] at h; simp at h
    · rw [parseStringBody.eq_def] at h; simp at h
    · rw [parseStringBody.eq_def] at h; simp at h
    · rw [parseStringBody.eq_def] at h; simp at h
    · exact (hshape a b c d tl rfl).elim
  | case8 c cs hcu hesc hnone hne ih =>
    intro body rest h
    rw [parseStringBody.eq_def] at h
    simp [hcu, hesc, hnone] at h
  | case9 c cs hcu hesc body0 rest0 hsome hne ih =>
    intro body rest h
    rw [parseStringBody.eq_def] at h
    simp [hcu, hesc, hsome] at h
    obtain ⟨rfl, rfl⟩ := h
    obtain ⟨hsplit, hchars⟩ := ih body0 rest0 hsome
    refine ⟨by simp [hsplit], ?_⟩
    intro x hx
    simp only [List.mem_cons] at hx
    rcases hx with rfl | rfl | hx
    · decide
    · exact isSimpleEscape_ne_nl hesc
    · exact hchars x hx
  | case10 c cs hcu hesc hne =>
    intro body rest h
    rw [parseStringBody.eq_def] at h
    simp [hcu, hesc] at h
  | case11 c cs hcq hcb hctl =>
    intro body rest h
    rw [parseStringBody.eq_def] at h
    simp [hcq, hcb, hctl] at h
  | case12 c cs hcq hcb hctl hnone ih =>
    intro body rest h
    rw [parseStringBody.eq_def] at h
    simp [hcq, hcb, hctl, hnone] at h
  | case13 c cs hcq hcb hctl body0 rest0 hsome ih =>
    intro body rest h
    rw [parseStringBody.eq_def] at h
    simp [hcq, hcb, hctl, hsome] at h
    obtain ⟨rfl, rfl⟩ := h
    obtain ⟨hsplit, hchars⟩ := ih body0 rest0 hsome
    refine ⟨by simp [hsplit], ?_⟩
    intro x hx
    simp only [List.mem_cons] at hx
    rcases hx with rfl | hx
    · intro hxn
      subst hxn
      exact hctl (by decide)
    · exact hchars x hx

theorem takeDigits_split : ∀ (cs ds rest : List Char), takeDigits cs = (ds, rest) →
    cs = ds ++ rest ∧ ∀ c ∈ ds, c.isDigit = true := by
  intro cs
  induction cs with
  | nil =>
    intro ds rest h
    simp only [takeDigits, Prod.mk.injEq] at h
    obtain ⟨rfl, rfl⟩ := h
    exact ⟨rfl, by simp⟩
  | cons c cs' ih =>
    intro ds rest h
    by_cases hd : c.isDigit = true
    · rcases htd : takeDigits cs' with ⟨ds', rest'⟩
      rw [takeDigits.eq_def] at h
      simp [hd, htd] at h
      obtain ⟨rfl, rfl⟩ := h
      obtain ⟨hsplit, hds⟩ := ih ds' rest' htd
      refine ⟨by simp [hsplit], ?_⟩
      intro x hx
      rcases List.mem_cons.mp hx with rfl | hx'
      · exact hd
      · exact hds x hx'
    · rw [takeDigits.eq_def] at h
      simp [hd] at h
      obtain ⟨rfl, rfl⟩ := h
      exact ⟨rfl, by simp⟩

theorem parseIntPart_split : ∀ (cs ip rest : List Char),
    parseIntPart cs = some (ip, rest) →
    cs = ip ++ rest ∧ (∀ c ∈ ip, c.isDigit = true) ∧ ip ≠ [] := by
  intro cs ip rest h
  cases cs with
  | nil => simp [parseIntPart] at h
  | cons c cs' =>
    rw [parseIntPart.eq_def] at h
    by_cases h0 : c = '0'
    · subst h0
      simp at h
      obtain ⟨rfl, rfl⟩ := h
      exact ⟨rfl, by simp, by simp⟩
    · by_cases hd : c.isDigit = true
      · rcases htd : takeDigits cs' with ⟨ds', rest'⟩
        simp [h0, hd, htd] at h
        obtain ⟨rfl, rfl⟩ := h
        obtain ⟨hsplit, hds⟩ := takeDigits_split cs' ds' rest' htd
        refine ⟨by simp [hsplit], ?_, by simp⟩
        intro x hx
        rcases List.mem_cons.mp hx with rfl | hx'
        · exact hd
        · exact hds x hx'
      · simp [h0, hd] at h

/-- Characters a number lexeme may contain. -/
def numChar (c : Char) : Prop := c ≠ '\n' ∧ c ≠ btChar

theorem numChar_of_digit {c : Char} (h : c.isDigit = true) : numChar c :=
  ⟨isDigit_ne_nl h, isDigit_ne_bt h⟩

theorem parseFracPart_split : ∀ (cs fp rest : List Char),
    parseFracPart cs = (fp, rest) →
    cs = fp ++ rest ∧ ∀ c ∈ fp, numChar c := by
  intro cs fp rest h
  rw [parseFracPart.eq_def] at h
  split at h
  · next cs' =>
    rcases htd : takeDigits cs' with ⟨ds, rest'⟩
    rw [htd] at h
    obtain ⟨hsplit, hds⟩ := takeDigits_split cs' ds rest' htd
    cases ds with
    | nil =>
      simp at h
      obtain ⟨rfl, rfl⟩ := h
      exact ⟨by simp, by simp⟩
    | cons d ds' =>
      simp at h
      obtain ⟨rfl, rfl⟩ := h
      refine ⟨by simp [hsplit], ?_⟩
      intro x hx
      rcases List.mem_cons.mp hx with rfl | hx'
      · exact ⟨by decide, by decide⟩
      · exact numChar_of_digit (hds x hx')
  · next hne =>
    simp at h
    obtain ⟨rfl, rfl⟩ := h
    exact ⟨rfl, by simp⟩

theorem numChar_of_eE {e : Char} (h : (decide (e = 'e') || decide (e = 'E')) = true) :
    numChar e := by
  simp only [Bool.or_eq_true, decide_eq_true_eq] at h
  rcases h with rfl | rfl <;> exact ⟨by decide, by decide⟩

theorem numChar_of_sign {s : Char} (h : (decide (s = '+') || decide (s = '-')) = true) :
    numChar s := by
  simp only [Bool.or_eq_true, decide_eq_true_eq] at h
  rcases h with rfl | rfl <;> exact ⟨by decide, by decide⟩

theorem parseExpPart_split : ∀ (cs ep rest : List Char),
    parseExpPart cs = (ep, rest) →
    cs = ep ++ rest ∧ ∀ c ∈ ep, numChar c := by
  intro cs ep rest h
  rw [parseExpPart.eq_def] at h
  split at h
  · simp at h
    obtain ⟨rfl, rfl⟩ := h
    exact ⟨rfl, by simp⟩
  · next e cs0 =>
    split at h
    · next heb =>
      split at h
      · simp at h
        obtain ⟨rfl, rfl⟩ := h
        exact ⟨rfl, by simp⟩
      · next s cs' =>
        split at h
        · next hsb =>
          split at h
          · next snd htd =>
            simp at h
            obtain ⟨rfl, rfl⟩ := h
            exact ⟨rfl, by simp⟩
          · next ds rest' hne htd =>
            simp at h
            obtain ⟨rfl, rfl⟩ := h
            obtain ⟨hsplit, hds⟩ := takeDigits_split cs' ds rest' htd
            refine ⟨by simp [hsplit], ?_⟩
            intro x hx
            simp only [List.mem_cons] at hx
            rcases hx with rfl | rfl | hx'
            · exact numChar_of_eE heb
            · exact numChar_of_sign hsb
            · exact numChar_of_digit (hds x hx')
        · next hsb =>
          split at h
          · next snd htd =>
            simp at h
            obtain ⟨rfl, rfl⟩ := h
            exact ⟨rfl, by simp⟩
          · next ds rest' hne htd =>
            simp at h
            obtain ⟨rfl, rfl⟩ := h
            obtain ⟨hsplit, hds⟩ := takeDigits_split (s :: cs') ds rest' htd
            refine ⟨by simp [hsplit], ?_⟩
            intro x hx
            simp only [List.mem_cons] at hx
            rcases hx with rfl | hx'
            · exact numChar_of_eE heb
            · exact numChar_of_digit (hds x hx')
    · next heb =>
      simp at h
      obtain ⟨rfl, rfl⟩ := h
      exact ⟨rfl, by simp⟩

theorem parseNumber_split : ∀ (cs lex rest : List Char),
    parseNumber cs = some (lex, rest) →
    cs = lex ++ rest ∧ (∀ c ∈ lex, numChar c) ∧ lex ≠ [] := by
  intro cs lex rest h
  rw [parseNumber.eq_def] at h
  split at h
  · next cs' =>
    rcases hip : parseIntPart cs' with _ | ⟨ip, r1⟩
    · rw [hip] at h; cases h
    · rw [hip] at h
      rcases hfp : parseFracPart r1 with ⟨fp, r2⟩
      rcases hep : parseExpPart r2 with ⟨ep, r3⟩
      simp only [hfp, hep, Option.some.injEq, Prod.mk.injEq] at h
      obtain ⟨rfl, rfl⟩ := h
      obtain ⟨hip1, hip2, _⟩ := parseIntPart_split cs' ip r1 hip
      obtain ⟨hfp1, hfp2⟩ := parseFracPart_split r1 fp r2 hfp
      obtain ⟨hep1, hep2⟩ := parseExpPart_split r2 ep r3 hep
      refine ⟨by simp [hip1, hfp1, hep1], ?_, by simp⟩
      intro x hx
      simp only [List.mem_cons, List.mem_append] at hx
      rcases hx with rfl | (hx | hx) | hx
      · exact ⟨by decide, by decide⟩
      · exact numChar_of_digit (hip2 x hx)
      · exact hfp2 x hx
      · exact hep2 x hx
  · next hnotneg =>
    rcases hip : parseIntPart cs with _ | ⟨ip, r1⟩
    · rw [hip] at h; cases h
    · rw [hip] at h
      rcases hfp : parseFracPart r1 with ⟨fp, r2⟩
      rcases hep : parseExpPart r2 with ⟨ep, r3⟩
      simp only [hfp, hep, Option.some.injEq, Prod.mk.injEq] at h
      obtain ⟨rfl, rfl⟩ := h
      obtain ⟨hip1, hip2, hipne⟩ := parseIntPart_split cs ip r1 hip
      obtain ⟨hfp1, hfp2⟩ := parseFracPart_split r1 fp r2 hfp
      obtain ⟨hep1, hep2⟩ := parseExpPart_split r2 ep r3 hep
      refine ⟨by simp [hip1, hfp1, hep1], ?_, by simp [hipne]⟩
      intro x hx
      simp only [List.mem_append] at hx
      rcases hx with (hx | hx) | hx
      · exact numChar_of_digit (hip2 x hx)
      · exact hfp2 x hx
      · exact hep2 x hx

/-- A scanned string together with its quotes is a good segment. -/
theorem goodseg_quote_body (body : List Char) (hb : ∀ c ∈ body, c ≠ '\n') :
    GoodSeg ('"' :: (body ++ ['"'])) := by
  refine ⟨?_, ?_, ?_⟩
  · apply nlBt_of_no_nl
    intro c hc
    simp only [List.mem_cons, List.mem_append, List.mem_singleton, List.not_mem_nil,
      or_false] at hc
    rcases hc with rfl | hc | rfl
    · decide
    · exact hb c hc
    · decide
  · rw [show ('"' :: (body ++ ['"'])) = ('"' :: body) ++ ['"'] from rfl,
      List.getLast?_concat]
    decide
  · show some '"' ≠ some btChar
    decide

/-- The number scanner cannot fail on a digit-headed input. -/
theorem parseNumber_digit_isSome (c : Char) (cs : List Char) (hd : c.isDigit = true) :
    parseNumber (c :: cs) ≠ Option.none := by
  have hne : c ≠ '-' := by
    intro hc; subst hc; simp [Char.isDigit] at hd
  have hip : parseIntPart (c :: cs) ≠ Option.none := by
    rw [parseIntPart.eq_def]
    by_cases h0 : c = '0'
    · simp [h0]
    · simp [h0, hd]
  rw [parseNumber.eq_def]
  split
  · next cs' heq =>
    have hcm : c = '-' := by
      have h2 := congrArg List.head? heq
      simpa using h2
    exact absurd hcm hne
  · rcases h0 : parseIntPart (c :: cs) with _ | ⟨ip, r1⟩
    · exact absurd h0 hip
    · rcases hf : parseFracPart r1 with ⟨fp, r2⟩
      rcases he : parseExpPart r2 with ⟨ep, r3⟩
      simp

set_option maxHeartbeats 1600000 in
/-- Whatever the JSON value parser consumes is a good segment. -/
theorem parser_goodseg : ∀ fuel : Nat,
    (∀ cs v rest, parseValue fuel cs = some (v, rest) →
      ∃ pre, cs = pre ++ rest ∧ GoodSeg pre) ∧
    (∀ cs v rest, parseObjBody fuel cs = some (v, rest) →
      ∃ pre, cs = pre ++ rest ∧ GoodSeg pre) ∧
    (∀ key cs acc v rest, parseObjMembers fuel key cs acc = some (v, rest) →
      ∃ pre, cs = pre ++ rest ∧ GoodSeg pre) ∧
    (∀ cs v rest, parseArrBody fuel cs = some (v, rest) →
      ∃ pre, cs = pre ++ rest ∧ GoodSeg pre) ∧
    (∀ cs acc v rest, parseArrElems fuel cs acc = some (v, rest) →
      ∃ pre, cs = pre ++ rest ∧ GoodSeg pre) := by
  intro fuel
  induction fuel with
  | zero =>
    refine ⟨?_, ?_, ?_, ?_, ?_⟩
    · intro cs v rest h; rw [parseValue.eq_def] at h; simp at h
    · intro cs v rest h; rw [parseObjBody.eq_def] at h; simp at h
    · intro key cs acc v rest h; rw [parseObjMembers.eq_def] at h; simp at h
    · intro cs v rest h; rw [parseArrBody.eq_def] at h; simp at h
    · intro cs acc v rest h; rw [parseArrElems.eq_def] at h; simp at h
  | succ f ih =>
    obtain ⟨ihV, ihO, ihM, ihA, ihE⟩ := ih
    refine ⟨?_, ?_, ?_, ?_, ?_⟩
    · -- parseValue
      intro cs v rest h
      obtain ⟨wsp, hcs, hws⟩ := skipWs_split cs
      rw [parseValue.eq_def] at h
      simp only at h
      split at h
      · cases h
      · next c rest2 heq =>
        rw [heq] at hcs
        split_ifs at h with hc1 hc2 hc3 hc4 hc5 hc6 hc7 hc8 hc9 hc10
        · subst hc1
          obtain ⟨pre2, hr2, hg2⟩ := ihO rest2 v rest h
          subst hr2
          refine ⟨wsp ++ '\x7b' :: pre2, by simp [hcs], ?_⟩
          exact goodseg_ws_append hws (goodseg_cons (by decide) (by decide) hg2) (by simp)
        · subst hc2
          obtain ⟨pre2, hr2, hg2⟩ := ihA rest2 v rest h
          subst hr2
          refine ⟨wsp ++ '[' :: pre2, by simp [hcs], ?_⟩
          exact goodseg_ws_append hws (goodseg_cons (by decide) (by decide) hg2) (by simp)
        · subst hc3
          split at h
          · cases h
          · next body r heqsb =>
            cases h
            obtain ⟨hsplit, hchars⟩ := parseStringBody_split rest2 body rest heqsb
            refine ⟨wsp ++ '"' :: (body ++ ['"']), ?_, ?_⟩
            · rw [hcs, hsplit]; simp [List.append_assoc]
            · exact goodseg_ws_append hws (goodseg_quote_body body hchars) (by simp)
        · subst hc4
          rcases hel : expectLit "rue".data rest2 with _ | r <;> rw [hel] at h <;> cases h
          refine ⟨wsp ++ 't' :: "rue".data, ?_, ?_⟩
          · rw [hcs, expectLit_split _ _ _ hel]; simp [List.append_assoc]
          · exact goodseg_ws_append hws ⟨by decide, by decide, by decide⟩ (by simp)
        · subst hc5
          rcases hel : expectLit "alse".data rest2 with _ | r <;> rw [hel] at h <;> cases h
          refine ⟨wsp ++ 'f' :: "alse".data, ?_, ?_⟩
          · rw [hcs, expectLit_split _ _ _ hel]; simp [List.append_assoc]
          · exact goodseg_ws_append hws ⟨by decide, by decide, by decide⟩ (by simp)
        · subst hc6
          rcases hel : expectLit "ull".data rest2 with _ | r <;> rw [hel] at h <;> cases h
          refine ⟨wsp ++ 'n' :: "ull".data, ?_, ?_⟩
          · rw [hcs, expectLit_split _ _ _ hel]; simp [List.append_assoc]
          · exact goodseg_ws_append hws ⟨by decide, by decide, by decide⟩ (by simp)
        · subst hc7
          rcases hel : expectLit "aN".data rest2 with _ | r <;> rw [hel] at h <;> cases h
          refine ⟨wsp ++ 'N' :: "aN".data, ?_, ?_⟩
          · rw [hcs, expectLit_split _ _ _ hel]; simp [List.append_assoc]
          · exact goodseg_ws_append hws ⟨by decide, by decide, by decide⟩ (by simp)
        · subst hc8
          rcases hel : expectLit "nfinity".data rest2 with _ | r <;> rw [hel] at h <;> cases h
          refine ⟨wsp ++ 'I' :: "nfinity".data, ?_, ?_⟩
          · rw [hcs, expectLit_split _ _ _ hel]; simp [List.append_assoc]
          · exact goodseg_ws_append hws ⟨by decide, by decide, by decide⟩ (by simp)
        · -- number position, leading minus
          subst hc10
          split at h
          · next lex r heqn =>
            cases h
            obtain ⟨hsplit, hchars, hlne⟩ := parseNumber_split ('-' :: rest2) lex rest heqn
            refine ⟨wsp ++ lex, ?_, ?_⟩
            · rw [hcs, hsplit]; simp [List.append_assoc]
            · exact goodseg_ws_append hws (goodseg_of_chars hchars) hlne
          · rcases hel : expectLit "Infinity".data rest2 with _ | r <;> rw [hel] at h <;> cases h
            refine ⟨wsp ++ '-' :: "Infinity".data, ?_, ?_⟩
            · rw [hcs, expectLit_split _ _ _ hel]; simp [List.append_assoc]
            · exact goodseg_ws_append hws ⟨by decide, by decide, by decide⟩ (by simp)
        · -- number position, digit head
          split at h
          · next lex r heqn =>
            cases h
            obtain ⟨hsplit, hchars, hlne⟩ := parseNumber_split (c :: rest2) lex rest heqn
            refine ⟨wsp ++ lex, ?_, ?_⟩
            · rw [hcs, hsplit]; simp [List.append_assoc]
            · exact goodseg_ws_append hws (goodseg_of_chars hchars) hlne
          · cases h
    · -- parseObjBody
      intro cs v rest h
      obtain ⟨wsp, hcs, hws⟩ := skipWs_split cs
      rw [parseObjBody.eq_def] at h
      simp only at h
      split at h
      · next rest2 heq =>
        rw [heq] at hcs
        cases h
        refine ⟨wsp ++ ['\x7d'], by simp [hcs], ?_⟩
        exact goodseg_ws_append hws ⟨by decide, by decide, by decide⟩ (by simp)
      · next rest2 heq =>
        rw [heq] at hcs
        split at h
        · cases h
        · next key r1 heqsb =>
          obtain ⟨preM, hr1, hgM⟩ := ihM (String.mk key) r1 [] v rest h
          obtain ⟨hsplit, hchars⟩ := parseStringBody_split rest2 key r1 heqsb
          subst hr1
          refine ⟨wsp ++ (('"' :: (key ++ ['"'])) ++ preM), ?_, ?_⟩
          · rw [hcs, hsplit]; simp [List.append_assoc]
          · exact goodseg_ws_append hws
              (goodseg_append (goodseg_quote_body key hchars) hgM) (by simp)
      · cases h
    · -- parseObjMembers
      intro key cs acc v rest h
      obtain ⟨wsp1, hcs, hws1⟩ := skipWs_split cs
      rw [parseObjMembers.eq_def] at h
      simp only at h
      split at h
      · next r heq =>
        rw [heq] at hcs
        split at h
        · cases h
        · next v2 r2 heqv =>
          obtain ⟨preV, hr, hgV⟩ := ihV r v2 r2 heqv
          obtain ⟨wsp2, hr2, hws2⟩ := skipWs_split r2
          split at h
          · next r3 heq2 =>
            rw [heq2] at hr2
            obtain ⟨wsp3, hr3, hws3⟩ := skipWs_split r3
            split at h
            · next r4 heq3 =>
              rw [heq3] at hr3
              split at h
              · cases h
              · next k2 r5 heqsb =>
                obtain ⟨preM, hr5, hgM⟩ :=
                  ihM (String.mk k2) r5 (acc ++ [(key, v2)]) v rest h
                obtain ⟨hsp4, hch4⟩ := parseStringBody_split r4 k2 r5 heqsb
                subst hr5
                refine ⟨wsp1 ++ ':' :: (preV ++ (wsp2 ++ ',' ::
                  (wsp3 ++ (('"' :: (k2 ++ ['"'])) ++ preM)))), ?_, ?_⟩
                · rw [hcs, hr, hr2, hr3, hsp4]; simp [List.append_assoc]
                · refine goodseg_ws_append hws1 ?_ (by simp)
                  refine goodseg_cons (by decide) (by decide) ?_
                  refine goodseg_append hgV ?_
                  refine goodseg_ws_append hws2 ?_ (by simp)
                  refine goodseg_cons (by decide) (by decide) ?_
                  refine goodseg_ws_append hws3 ?_ (by simp)
                  exact goodseg_append (goodseg_quote_body k2 hch4) hgM
            · cases h
          · next r3 heq2 =>
            rw [heq2] at hr2
            cases h
            refine ⟨wsp1 ++ ':' :: (preV ++ (wsp2 ++ ['\x7d'])), ?_, ?_⟩
            · rw [hcs, hr, hr2]; simp [List.append_assoc]
            · refine goodseg_ws_append hws1 ?_ (by simp)
              refine goodseg_cons (by decide) (by decide) ?_
              refine goodseg_append hgV ?_
              exact goodseg_ws_append hws2 ⟨by decide, by decide, by decide⟩ (by simp)
          · cases h
      · cases h
    · -- parseArrBody
      intro cs v rest h
      rw [parseArrBody.eq_def] at h
      simp only at h
      split at h
      · next rest2 heq =>
        obtain ⟨wsp, hcs, hws⟩ := skipWs_split cs
        rw [heq] at hcs
        cases h
        refine ⟨wsp ++ [']'], by simp [hcs], ?_⟩
        exact goodseg_ws_append hws ⟨by decide, by decide, by decide⟩ (by simp)
      · exact ihE cs [] v rest h
    · -- parseArrElems
      intro cs acc v rest h
      rw [parseArrElems.eq_def] at h
      simp only at h
      split at h
      · cases h
      · next v2 r heqv =>
        obtain ⟨preV, hcsV, hgV⟩ := ihV cs v2 r heqv
        obtain ⟨wsp, hr, hws⟩ := skipWs_split r
        split at h
        · next r2 heq =>
          rw [heq] at hr
          cases h
          refine ⟨preV ++ (wsp ++ [']']), ?_, ?_⟩
          · rw [hcsV, hr]; simp [List.append_assoc]
          · exact goodseg_append hgV
              (goodseg_ws_append hws ⟨by decide, by decide, by decide⟩ (by simp))
        · next r2 heq =>
          rw [heq] at hr
          obtain ⟨preE, hr2, hgE⟩ := ihE r2 (acc ++ [v2]) v rest h
          subst hr2
          refine ⟨preV ++ (wsp ++ ',' :: preE), ?_, ?_⟩
          · rw [hcsV, hr]; simp [List.append_assoc]
          · exact goodseg_append hgV
              (goodseg_ws_append hws (goodseg_cons (by decide) (by decide) hgE) (by simp))
        · cases h

/-- A text accepted by `json.loads` never contains a raw newline followed
by a backtick. -/
theorem json_loads_list_nlBt (cs : List Char) (j : Json)
    (h : json_loads_list cs = some j) : nlBt cs = false := by
  unfold json_loads_list at h
  rcases hpv : parseValue (jsonFuel cs) cs with _ | ⟨v, rest⟩ <;> rw [hpv] at h
  · cases h
  · replace h : (if skipWs rest = [] then some v else Option.none) = some j := h
    by_cases hrest : skipWs rest = []
    · obtain ⟨pre, hsplit, hg⟩ := (parser_goodseg (jsonFuel cs)).1 cs v rest hpv
      have hws := skipWs_eq_nil rest hrest
      rw [hsplit]
      exact nlBt_append_false pre rest hg.1
        (nlBt_of_no_bt rest (fun c hc => ws_ne_bt (hws c hc)))
        (fun hl => absurd hl hg.2.1)
    · rw [if_neg hrest] at h
      cases h

/-- A nonempty list is a Boolean prefix of itself extended by anything. -/
theorem isPrefixOf_append_self : ∀ (a b : List Char), a.isPrefixOf (a ++ b) = true := by
  intro a
  induction a with
  | nil => intro b; simp [List.isPrefixOf]
  | cons c a' ih => intro b; simp [List.isPrefixOf, ih]

/-- The value parser rejects any input whose first character is a
backtick, whatever the fuel. -/
theorem parseValue_bt (fuel : Nat) (rest : List Char) :
    parseValue fuel (btChar :: rest) = Option.none := by
  cases fuel with
  | zero => rw [parseValue.eq_def]
  | succ f =>
    rw [parseValue.eq_def]
    have hskip : skipWs (btChar :: rest) = btChar :: rest := by
      rw [skipWs.eq_def]
      simp [isWsChar, btChar]
    simp only [hskip]
    have h1 : ¬btChar = '\x7b' := by decide
    have h2 : ¬btChar = '[' := by decide
    have h3 : ¬btChar = '"' := by decide
    have h4 : ¬btChar = 't' := by decide
    have h5 : ¬btChar = 'f' := by decide
    have h6 : ¬btChar = 'n' := by decide
    have h7 : ¬btChar = 'N' := by decide
    have h8 : ¬btChar = 'I' := by decide
    have h9 : (decide (btChar = '-') || btChar.isDigit) = false := by decide
    simp [h1, h2, h3, h4, h5, h6, h7, h8, h9]

/-- Dropping through the opening marker of an exact wrap. -/
theorem dropAfterFirst_self (marker tail : List Char) (hm : marker ≠ []) :
    dropAfterFirst marker (marker ++ tail) = some tail := by
  cases marker with
  | nil => exact absurd rfl hm
  | cons c m' =>
    rw [show ((c :: m') ++ tail) = c :: (m' ++ tail) from rfl, dropAfterFirst]
    have hpre : (c :: m').isPrefixOf (c :: (m' ++ tail)) = true := by
      rw [show (c :: (m' ++ tail)) = ((c :: m') ++ tail) from rfl]
      exact isPrefixOf_append_self (c :: m') tail
    rw [if_pos hpre]
    rw [show (c :: (m' ++ tail)) = ((c :: m') ++ tail) from rfl, List.drop_left]

/-- A text free of the newline-backtick sequence keeps the whole interior
when the closing marker is appended. -/
theorem takeBefore_append_close (a : List Char) (ha : nlBt a = false) :
    takeBefore closeMarker (a ++ closeMarker) = some a := by
  induction a with
  | nil => decide
  | cons c a' ih =>
    have hnpre : closeMarker.isPrefixOf (c :: (a' ++ closeMarker)) = false := by
      have hcm : closeMarker = '\n' :: btChar :: btChar :: btChar :: [] := by decide
      rw [hcm]
      by_cases hc : c = '\n'
      · subst hc
        cases a' with
        | nil => decide
        | cons d a'' =>
          have hd : btChar ≠ d := by
            intro hdd
            rw [nlBt, ← hdd] at ha
            simp at ha
          simp [List.isPrefixOf, hd]
      · have hc' : ('\n' : Char) ≠ c := fun hh => hc hh.symm
        simp [List.isPrefixOf, hc']
    rw [List.cons_append, takeBefore.eq_def]
    simp only [hnpre, Bool.false_eq_true, if_false]
    rw [ih (nlBt_tail c a' ha)]
    rfl

/-- Data of the fenced wrap. -/
theorem wrapFence_data (s : String) :
    (wrapFence s).data = openMarker ++ (s.data ++ closeMarker) := by
  show ("```json\n" ++ s ++ "\n```").data = _
  rw [String.data_append, String.data_append]
  simp [openMarker, closeMarker]

/-- Extraction of the interior of an extraneous wrap, for payloads free of
the newline-backtick sequence. -/
theorem extract_fenced_wrap (s : String) (hs : nlBt s.data = false) :
    extract_fenced (wrapFence s).data = some s.data := by
  unfold extract_fenced
  rw [wrapFence_data, dropAfterFirst_self openMarker (s.data ++ closeMarker) (by decide)]
  exact takeBefore_append_close s.data hs

/-- C6: the response-parsing pipeline of lines 2462-2477.  Directly valid
JSON parses to its payload; the same payload wrapped in extraneous
```json fencing parses to the same payload (this holds for every parsable
payload because text accepted by the strict `json.loads` can never contain
a raw newline directly followed by a backtick, so the closing fence is
found exactly); and text with no parsable JSON on either route yields the
parse-error outcome — `parse_phase_text` is total, so no exception
escapes. -/
theorem C6_response_parsing (s : String) (j : Json)
    (hs : json_loads s = some j) :
    parse_phase_text s = some j ∧
    parse_phase_text (wrapFence s) = some j ∧
    (∀ t : String, json_loads t = Option.none →
      (∀ inner, extract_fenced t.data = some inner → json_loads_list inner = Option.none) →
      parse_phase_text t = Option.none) := by
  refine ⟨?_, ?_, ?_⟩
  · unfold parse_phase_text
    rw [hs]
  · unfold parse_phase_text
    have hform : (wrapFence s).data = btChar :: ("``json\n".data ++ (s.data ++ closeMarker)) := by
      rw [wrapFence_data]
      rfl
    have hwf : json_loads (wrapFence s) = Option.none := by
      unfold json_loads json_loads_list
      rw [hform, parseValue_bt]
    rw [hwf]
    have hnl := json_loads_list_nlBt s.data j hs
    rw [extract_fenced_wrap s hnl]
    exact hs
  · intro t ht hext
    unfold parse_phase_text
    rw [ht]
    rcases hx : extract_fenced t.data with _ | inner
    · rfl
    · exact hext inner hx

/-- Witness for C6 at the payload `[1]`. -/
theorem C6_response_parsing_witness :
    json_loads "[1]" = some (Json.arr [Json.num "1"]) ∧
    parse_phase_text "[1]" = some (Json.arr [Json.num "1"]) ∧
    parse_phase_text (wrapFence "[1]") = some (Json.arr [Json.num "1"]) :=
  ⟨rfl, (C6_response_parsing "[1]" (Json.arr [Json.num "1"]) rfl).1,
    (C6_response_parsing "[1]" (Json.arr [Json.num "1"]) rfl).2.1⟩
